import Mathlib

/-!
# Pybricks firmware: telemetry logger, motor commands and time synchronisation

A shallow embedding of `lib/pbio/src/logger.c`, of the motor commands of
`extmod/modmotor.c` and of `read_packet` of `timesynch.c`, with the properties of the
specification proved about it.

Modelling conventions.

* The log structure `pbio_log_t` is passed explicitly: every logger function takes the
  log and returns the new log.  The buffer the log points to is part of the log value
  (`data`), a map from cell index to cell content.
* The millisecond clock `pbdrv_clock_get_ms` is an input of the functions that read it.
* The fields of `pbio_log_t` are declared in `pbio/logger.h`, which is not among the
  sources: the counters are natural numbers, the clock readings and the cell contents are
  integers, and a count is the same number as an `int32_t` (counts stay below `2^31`).
  What `logger.c` itself fixes is explicit: the `uint32_t` index of `pbio_logger_read`
  with its wrap-around at `sampled - 1`, the `uint8_t` loop counters, and the elapsed
  time, a difference of 32-bit clock values stored in an `int32_t` cell.
* In `motor_Motor_make_new` the narrowing of tooth counts to `int16_t` and the `int16_t`
  loop counter are explicit; an out-of-range value is reduced modulo `2^16`, as the
  compiler of the firmware does.  The gear ratio is a `float_t`, which on the 32-bit
  targets of the firmware is `float`, the binary32 format of IEEE 754: every
  multiplication and division is rounded to the nearest value of the format (ties to
  even), with gradual underflow to zero and overflow to infinity.
* A command of `modmotor.c` yields the trace of the calls it makes into pbio and the
  thread lock, and its result: a value, or the way it failed.  The answers of pbio and of
  the MicroPython runtime, which are not among the sources, are inputs (`motor_env`).
* The loop of `wait_for_completion` is bounded by a number of reads of the control state;
  a wait that has not ended within them yields `out_of_fuel`.
* The state of `timesynch.c` (offset and authority level) and the result of the MAC read
  are passed explicitly; the word size of `rtimer_clock_t` is a parameter.
-/

deriving instance DecidableEq for Except

namespace Pybricks

set_option maxRecDepth 100000

/-! ## Machine words -/

/-- Conversion of an integer to `uint32_t`. -/
def to_uint32 (x : Int) : Nat := (x % 4294967296).toNat

/-- Conversion of an integer to `int16_t` (two's complement narrowing). -/
def to_int16 (x : Int) : Int := (x + 32768) % 65536 - 32768

/-- Conversion of an integer to `int32_t` (two's complement narrowing). -/
def to_int32 (x : Int) : Int := (x + 2147483648) % 4294967296 - 2147483648

/-- Conversion of an integer to `int8_t` (two's complement narrowing). -/
def to_int8 (x : Int) : Int := (x + 128) % 256 - 128

/-- Conversion of an integer to `uint8_t`. -/
def to_uint8 (x : Nat) : Nat := x % 256

/-! ## Floating-point numbers (`float_t`) -/

/-- The values of `float_t`, the type of `gear_ratio` in `motor_Motor_make_new`; on the
32-bit targets of the firmware it is `float`, the binary32 format of IEEE 754.  A finite
value is `m * 2^e` with a sign, where `2^23 ≤ m < 2^24` and `-149 ≤ e ≤ 104` (a normal
number) or `m < 2^23` and `e = -149` (zero or a subnormal number); the other values are
the two infinities and NaN. -/
inductive float_t where
  | finite (neg : Bool) (m : Nat) (e : Int)
  | inf (neg : Bool)
  | nan
  deriving DecidableEq

/-- The position of the leading bit of `n`, by halving; the first argument bounds the
number of halvings. -/
def log2_loop : Nat → Nat → Nat
  | 0, _ => 0
  | fuel + 1, n => if n < 2 then 0 else log2_loop fuel (n / 2) + 1

/-- The largest `k` with `2^k ≤ num / den`, for positive `num` and `den`. -/
def floor_log2 (num den : Nat) : Int :=
  let a := log2_loop num num
  let b := log2_loop den den
  if (if b ≤ a then den * 2 ^ (a - b) ≤ num else den ≤ num * 2 ^ (b - a)) then
    (a : Int) - (b : Int)
  else (a : Int) - (b : Int) - 1

/-- Rounding of the rational number `num / den` (with the sign `neg`) to `float_t`: to the
nearest value of the format, a tie going to the value with an even `m`; a result beyond
the largest finite value is infinity, and a result below half the smallest subnormal
number is zero. -/
def float_round (neg : Bool) (num den : Nat) : float_t :=
  if num = 0 then .finite neg 0 (-149)
  else
    let q := floor_log2 num den
    -- the exponent of the unit in the last place
    let p := max q (-126) - 23
    let N := if p < 0 then num * 2 ^ (-p).toNat else num
    let D := if p < 0 then den else den * 2 ^ p.toNat
    let n0 := N / D
    let r := N % D
    let n := if D < 2 * r ∨ (2 * r = D ∧ n0 % 2 = 1) then n0 + 1 else n0
    if n = 16777216 then
      (if p + 1 > 104 then .inf neg else .finite neg 8388608 (p + 1))
    else if p > 104 then .inf neg
    else .finite neg n p

/-- Rounding of `num / den * 2^e` to `float_t`. -/
def float_round_scaled (neg : Bool) (num den : Nat) (e : Int) : float_t :=
  if e < 0 then float_round neg num (den * 2 ^ (-e).toNat)
  else float_round neg (num * 2 ^ e.toNat) den

/-- Conversion of an integer to `float_t`; exact for the values of `int16_t`. -/
def float_t.of_int (k : Int) : float_t := float_round (decide (k < 0)) k.natAbs 1

/-- The product `x * y` of `float_t` values. -/
def float_t.mul : float_t → float_t → float_t
  | .nan, _ => .nan
  | _, .nan => .nan
  | .inf s, .inf t => .inf (xor s t)
  | .inf s, .finite t m _ => if m = 0 then .nan else .inf (xor s t)
  | .finite s m _, .inf t => if m = 0 then .nan else .inf (xor s t)
  | .finite s m e, .finite t m1 e1 => float_round_scaled (xor s t) (m * m1) 1 (e + e1)

/-- The quotient `x / y` of `float_t` values. -/
def float_t.div : float_t → float_t → float_t
  | .nan, _ => .nan
  | _, .nan => .nan
  | .inf _, .inf _ => .nan
  | .inf s, .finite t _ _ => .inf (xor s t)
  | .finite s _ _, .inf t => .finite (xor s t) 0 (-149)
  | .finite s m e, .finite t m1 e1 =>
    if m1 = 0 then (if m = 0 then .nan else .inf (xor s t))
    else float_round_scaled (xor s t) m m1 (e - e1)

/-- The rational number that a finite `float_t` value is; an infinity and NaN are no
number. -/
def float_t.to_rat : float_t → Option ℚ
  | .finite neg m e => some ((if neg then -1 else 1) * (m : ℚ) * (2 : ℚ) ^ e)
  | _ => none

/-! ## Error codes -/

/-- Error codes of `pbio/error.h` (the codes the modelled functions return or raise). -/
inductive pbio_error_t where
  | PBIO_SUCCESS
  | PBIO_ERROR_FAILED
  | PBIO_ERROR_INVALID_ARG
  | PBIO_ERROR_INVALID_PORT
  | PBIO_ERROR_IO
  | PBIO_ERROR_NO_DEV
  | PBIO_ERROR_NOT_IMPLEMENTED
  deriving DecidableEq, Repr

open pbio_error_t

/-! ## Telemetry logger (`lib/pbio/src/logger.c`) -/

/-- Modelled from the spec: the macro `NUM_DEFAULT_LOG_VALUES` of `pbio/logger.h`, which is
not among the sources.  The specification fixes the layout of a row as one leading column
with the elapsed milliseconds followed by the caller-supplied values. -/
def NUM_DEFAULT_LOG_VALUES : Nat := 1

/-- The log structure `pbio_log_t`.  Its declaration (`pbio/logger.h`) is not among the
sources; the fields are the ones `logger.c` reads and writes.  `num_values` is the column
count that the `uint8_t` loop counters of `logger.c` range over.  `data` is the content of
the buffer that `log->data` points to. -/
structure pbio_log_t where
  active : Bool
  skipped : Nat
  sampled : Nat
  len : Nat
  sample_div : Int
  start : Int
  num_values : Fin 256
  data : Nat → Int

/-- `pbio_logger_start`: (re-)initialise the log on the buffer `buf` with room for `len`
rows, sampling every `div`-th update; `now` is the value of `pbdrv_clock_get_ms()`. -/
def pbio_logger_start (log : pbio_log_t) (buf : Nat → Int) (len : Nat) (div : Int)
    (now : Int) : pbio_log_t :=
  { log with
    sampled := 0
    skipped := 0
    data := buf
    len := len
    sample_div := div
    start := now
    active := true }

/-- `pbio_logger_rows`: the number of rows sampled so far (returned as an `int32_t`). -/
def pbio_logger_rows (log : pbio_log_t) : Int := log.sampled

/-- `pbio_logger_cols`: the number of columns of a row (returned as an `int32_t`). -/
def pbio_logger_cols (log : pbio_log_t) : Int := log.num_values.val

/-- `pbio_logger_stop`: release the logger. -/
def pbio_logger_stop (log : pbio_log_t) : pbio_log_t :=
  { log with active := false }

/-- The loop `for (uint8_t i = NUM_DEFAULT_LOG_VALUES; i < log->num_values; i++)` of
`pbio_logger_update`, entered at counter `i`: cell `base + i` of the log buffer receives
`buf[i - NUM_DEFAULT_LOG_VALUES]`.  The first argument bounds the number of iterations; a
`uint8_t` counter below `num_values` is incremented fewer than 256 times. -/
def update_write_loop (num_values base : Nat) (buf : Nat → Int) :
    Nat → Nat → (Nat → Int) → (Nat → Int)
  | 0, _, data => data
  | fuel + 1, i, data =>
    if i < num_values then
      update_write_loop num_values base buf fuel (to_uint8 (i + 1))
        (Function.update data (base + i) (buf (i - NUM_DEFAULT_LOG_VALUES)))
    else data

/-- `pbio_logger_update`: called once per control tick with the values `buf` to log; `now`
is the value of `pbdrv_clock_get_ms()`.  The difference `pbdrv_clock_get_ms() - log->start`
is a difference of 32-bit values stored in an `int32_t` cell: the cell receives the
difference reduced modulo `2^32` to the range of `int32_t`. -/
def pbio_logger_update (log : pbio_log_t) (buf : Nat → Int) (now : Int) : pbio_log_t :=
  -- Log nothing if logger is inactive
  if !log.active then log
  -- Skip logging if we are not yet at a multiple of sample_div
  else if ((log.skipped + 1 : Nat) : Int) ≠ log.sample_div then
    { log with skipped := log.skipped + 1 }
  -- Stop if log is full.
  else if log.sampled > log.len then
    { log with skipped := 0, active := false }
  -- Stop successfully when done
  else if log.sampled = log.len then
    { log with skipped := 0, active := false }
  else
    -- Write time of logging
    let data1 := Function.update log.data (log.sampled * log.num_values.val)
      (to_int32 (now - log.start))
    -- Write the data
    let data2 := update_write_loop log.num_values.val (log.sampled * log.num_values.val) buf
      256 NUM_DEFAULT_LOG_VALUES data1
    -- Increment sample counter
    { log with skipped := 0, data := data2, sampled := log.sampled + 1 }

/-- The loop `for (uint8_t i = 0; i < log->num_values; i++)` of `pbio_logger_read`, entered
at counter `i`: `buf[i]` receives cell `base + i` of the log buffer. -/
def read_copy_loop (num_values base : Nat) (data : Nat → Int) :
    Nat → Nat → (Nat → Int) → (Nat → Int)
  | 0, _, buf => buf
  | fuel + 1, i, buf =>
    if i < num_values then
      read_copy_loop num_values base data fuel (to_uint8 (i + 1))
        (Function.update buf i (data (base + i)))
    else buf

/-- What a call of `pbio_logger_read` leaves behind: the error code returned, the content of
the caller's buffer `buf`, and the log. -/
structure read_result where
  err : pbio_error_t
  buf : Nat → Int
  log : pbio_log_t

/-- `pbio_logger_read`: copy row `sindex` (or the latest row for `-1`) into `buf`. -/
def pbio_logger_read (log : pbio_log_t) (sindex : Int) (buf : Nat → Int) : read_result :=
  -- Validate index value
  if sindex < -1 then ⟨PBIO_ERROR_INVALID_ARG, buf, log⟩
  else
    -- Get index or latest sample if requested index is -1
    let index : Nat :=
      if sindex < 0 then to_uint32 ((log.sampled : Int) - 1) else to_uint32 sindex
    -- Ensure index is within bounds
    if index ≥ log.sampled then ⟨PBIO_ERROR_INVALID_ARG, buf, log⟩
    else
      -- Read the data
      ⟨PBIO_SUCCESS,
        read_copy_loop log.num_values.val (index * log.num_values.val) log.data 256 0 buf,
        log⟩

/-- One call of `pbio_logger_update`: the values passed and the clock value at the call. -/
structure update_call where
  values : Nat → Int
  now : Int

/-- A sequence of `pbio_logger_update` calls, in order. -/
def run_updates (log : pbio_log_t) (calls : List update_call) : pbio_log_t :=
  calls.foldl (fun l c => pbio_logger_update l c.values c.now) log

/-- The calls a client can make on a log after it was started. -/
inductive logger_op where
  | update (values : Nat → Int) (now : Int)
  | stop
  | read (sindex : Int) (buf : Nat → Int)
  | rows
  | cols
  | start (buf : Nat → Int) (len : Nat) (div : Int) (now : Int)

/-- The log after one client call. -/
def logger_op.apply (log : pbio_log_t) : logger_op → pbio_log_t
  | .update values now => pbio_logger_update log values now
  | .stop => pbio_logger_stop log
  | .read sindex buf => (pbio_logger_read log sindex buf).log
  | .rows => log
  | .cols => log
  | .start buf len div now => pbio_logger_start log buf len div now

/-- Whether a client call is `pbio_logger_start`, which begins a new session. -/
def logger_op.restarts : logger_op → Bool
  | .start _ _ _ _ => true
  | _ => false

/-- The log after a sequence of client calls. -/
def run_ops (log : pbio_log_t) (ops : List logger_op) : pbio_log_t :=
  ops.foldl logger_op.apply log

/-- A log of three columns, used to evaluate the logger on concrete inputs. -/
def log0 : pbio_log_t :=
  { active := false, skipped := 0, sampled := 0, len := 0, sample_div := 0, start := 0,
    num_values := 3, data := fun _ => 0 }

/-- Caller values `b, b + 1, b + 2, …`, used to evaluate the logger on concrete inputs. -/
def values_from (b : Int) : Nat → Int := fun i => b + i

/-- A session of three columns with one row written and the skip counter one short of the
divisor 2: the next update samples into row 1. -/
def log_one_row : pbio_log_t :=
  { active := true, skipped := 1, sampled := 1, len := 3, sample_div := 2, start := 100,
    num_values := 3, data := fun j => if j < 3 then 7 else 0 }

/-- The session of the specification's example after four updates: capacity 3, divisor 2,
two rows written. -/
def log_two_rows : pbio_log_t :=
  run_updates (pbio_logger_start log0 (fun _ => 0) 3 2 100)
    [⟨values_from 10, 101⟩, ⟨values_from 20, 102⟩, ⟨values_from 30, 103⟩,
      ⟨values_from 40, 104⟩]

/-- Rows already written are kept: `log2` has the column count of `log1`, at least as many
rows, and the same content in every cell of the rows of `log1`. -/
def keeps_rows (log1 log2 : pbio_log_t) : Prop :=
  log2.num_values = log1.num_values ∧ log1.sampled ≤ log2.sampled ∧
    (∀ j, j < log1.sampled * log1.num_values.val → log2.data j = log1.data j) ∧
    log2.start = log1.start

/-! ## Motor constructor (`extmod/modmotor.c`) -/

/-- MicroPython objects, as far as `motor_Motor_make_new` looks at them: a small integer
(the tagged word that `MP_OBJ_IS_SMALL_INT` recognises), a tuple or list with its items,
or any other object; for the latter `int_value` is the integer `mp_obj_get_int` converts
it to (a long integer that fits a machine word, a boolean), if there is one. -/
inductive mp_obj_t where
  | small_int (value : Int)
  | seq (items : List mp_obj_t)
  | obj (int_value : Option Int)

/-- How a call can end other than by returning: with an exception raised by `pb_assert`
for a pbio error code, with an exception raised by a conversion of the MicroPython
runtime (`TypeError`, `OverflowError`), or with a read outside an array, which nothing
checks.  `out_of_fuel` marks an exhausted iteration bound of the model: the constructor
never ends with it (`make_new_gear_ratio_fuel`), and a command that polls for the end of
a maneuver ends with it when the given number of polls does not see the maneuver end. -/
inductive failure where
  | pb_error (err : pbio_error_t)
  | mp_error
  | out_of_bounds
  | out_of_fuel
  deriving DecidableEq, Repr

/-- Modelled from the spec: `pb_assert` of `pberror.c`, which is not among the sources.
An error code other than `PBIO_SUCCESS` is reported to the caller as a typed error of
that kind (the specification's `InvalidArgument` for `PBIO_ERROR_INVALID_ARG`); on
`PBIO_SUCCESS` the call goes on. -/
def pb_assert (err : pbio_error_t) : Except failure Unit :=
  if err = PBIO_SUCCESS then .ok () else .error (.pb_error err)

/-- `MP_OBJ_IS_SMALL_INT` of the MicroPython runtime. -/
def MP_OBJ_IS_SMALL_INT : mp_obj_t → Bool
  | .small_int _ => true
  | _ => false

/-- `mp_obj_get_int` of the MicroPython runtime: the integer value of an object, or an
exception when it has none. -/
def mp_obj_get_int : mp_obj_t → Except failure Int
  | .small_int value => .ok value
  | .obj (some value) => .ok value
  | _ => .error .mp_error

/-- `mp_obj_get_array` of the MicroPython runtime: the items of a tuple or list, or an
exception for any other object. -/
def mp_obj_get_array : mp_obj_t → Except failure (List mp_obj_t)
  | .seq items => .ok items
  | _ => .error .mp_error

/-- `mp_arg_check_num` of the MicroPython runtime: an exception unless the number of
positional arguments is within bounds and keyword arguments are given only if taken. -/
def mp_arg_check_num (n_args n_kw n_args_min n_args_max : Nat) (takes_kw : Bool) :
    Except failure Unit :=
  if (n_kw > 0 ∧ takes_kw = false) ∨ n_args < n_args_min ∨ n_args > n_args_max then
    .error .mp_error
  else .ok ()

/-- The C expression `items[i]` on an array of `items.length` objects. -/
def array_get (items : List mp_obj_t) (i : Nat) : Except failure mp_obj_t :=
  match items[i]? with
  | some o => .ok o
  | none => .error .out_of_bounds

/-- Modelled from the spec: the direction constant `PBIO_MOTOR_DIR_CLOCKWISE` of the pbio
headers, which are not among the sources; the specification names the two direction
signs clockwise and counter-clockwise, and the first enumerator is taken. -/
def PBIO_MOTOR_DIR_CLOCKWISE : Int := 0

/-- Lines 63 to 70 of `motor_Motor_make_new`: the body of the loop over the gear trains
once `gears` is in place.  The first and the last gear are converted to `int16_t`, a
tooth count below 1 is rejected, and the ratio of the train is included in
`gear_ratio` by `(gear_ratio*last_gear)/first_gear`: the two tooth counts are converted to
`float_t`, and the product and the quotient are each rounded to `float_t`. -/
def include_train (gears : List mp_obj_t) (gear_ratio : float_t) : Except failure float_t := do
  let first_gear := to_int16 (← mp_obj_get_int (← array_get gears 0))
  let last_gear := to_int16 (← mp_obj_get_int (← array_get gears (gears.length - 1)))
  if first_gear < 1 ∨ last_gear < 1 then
    pb_assert PBIO_ERROR_INVALID_ARG
  -- Include the ratio of this train in the overall gear train
  pure ((gear_ratio.mul (.of_int last_gear)).div (.of_int first_gear))

/-- The loop `for (int16_t train = 0; train < n_trains; train++)` of
`motor_Motor_make_new`, entered with counter `train`, the array `gears` and the ratio
`gear_ratio`.  The comparison converts the counter to `size_t`: a negative counter
becomes a value that no array length reaches.  The first argument bounds the number of
iterations. -/
def gear_train_loop (is_one_train : Bool) (trains : List mp_obj_t) (n_trains : Nat) :
    Nat → Int → List mp_obj_t → float_t → Except failure float_t
  | 0, _, _, _ => .error .out_of_fuel
  | fuel + 1, train, gears, gear_ratio =>
    if 0 ≤ train ∧ train.toNat < n_trains then do
      -- Unless we have just one list of gears, unpack the list of gears for this train
      let gears ←
        if !is_one_train then (do mp_obj_get_array (← array_get trains train.toNat))
        else pure gears
      let gear_ratio ← include_train gears gear_ratio
      gear_train_loop is_one_train trains n_trains fuel (to_int16 (train + 1)) gears
        gear_ratio
    else pure gear_ratio

/-- Lines 38 to 72 of `motor_Motor_make_new`: the gear ratio for the gear argument
`args[2]`, of the form `[[12, 20, 36], [20, 40]]` or `[12, 20, 36]`. -/
def make_new_gear_ratio (arg : mp_obj_t) : Except failure float_t := do
  -- Unpack the main list
  let trains ← mp_obj_get_array arg
  let n_trains := trains.length
  -- If the first and last element is an integer, assume the user gave just one list
  let is_one_train ←
    (do
      if MP_OBJ_IS_SMALL_INT (← array_get trains 0) then
        pure (MP_OBJ_IS_SMALL_INT (← array_get trains (n_trains - 1)))
      else pure false)
  if is_one_train then
    gear_train_loop is_one_train trains 1 2 0 trains (float_t.of_int 1)
  else
    gear_train_loop is_one_train trains n_trains (n_trains + 1) 0 [] (float_t.of_int 1)

/-- Lines 30 to 72 of `motor_Motor_make_new`: the port, the direction and the gear ratio
that the constructor works out from its arguments before it takes the thread lock. -/
def make_new_arguments (n_kw : Nat) (args : List mp_obj_t) :
    Except failure (Int × Int × float_t) := do
  let n_args := args.length
  mp_arg_check_num n_args n_kw 1 3 false
  let port ← mp_obj_get_int (← array_get args 0)
  -- Configure direction or set to default
  let direction ←
    if n_args > 1 then (do pure (to_int8 (← mp_obj_get_int (← array_get args 1))))
    else pure PBIO_MOTOR_DIR_CLOCKWISE
  -- Default gear ratio, or the gear argument parsed
  let gear_ratio ←
    if n_args = 3 then (do make_new_gear_ratio (← array_get args 2))
    else pure (float_t.of_int 1)
  pure (port, direction, gear_ratio)

/-- The functions of the pbio motor layer that the commands of `modmotor.c` call besides
`pbio_motor_setup`.  None of them is among the sources. -/
inductive pbio_fn where
  | pbio_motor_set_duty_cycle_usr
  | pbio_motor_get_angle
  | pbio_motor_is_stalled
  | pbio_motor_reset_angle
  | pbio_motor_get_angular_rate
  | pbio_motor_run
  | pbio_motor_has_encoder
  | pbio_motor_stop
  | pbio_motor_run_time
  | pbio_motor_run_until_stalled
  | pbio_motor_get_dc_settings
  | pbio_motor_set_dc_settings
  | pbio_motor_run_angle
  | pbio_motor_run_target
  | pbio_motor_track_target
  | pbio_motor_set_run_settings
  | pbio_motor_set_pid_settings
  deriving DecidableEq

/-- What a command of `modmotor.c` does that its environment can observe: taking and
releasing the thread lock, a call of a pbio function with the values passed (the port
first), a read of `motor_control_active[PORT_TO_IDX(port)]`, and a sleep of
`mp_hal_delay_ms`. -/
inductive event where
  | pb_thread_enter
  | pb_thread_exit
  | pbio_motor_setup (port : Int) (direction : Int) (gear_ratio : float_t)
  | pbio (fn : pbio_fn) (args : List Int)
  | motor_control_active (port : Int)
  | mp_hal_delay_ms (ms : Int)
  deriving DecidableEq

/-- The object `motor_Motor_make_new` returns. -/
structure motor_Motor_obj_t where
  port : Int
  deriving DecidableEq

/-- A finished command: the events in order, and the value returned or the way the
command failed. -/
structure call_result (α : Type) where
  trace : List event
  result : Except failure α

/-- `motor_Motor_make_new`.  `pbio_motor_setup` is the pbio function of that name, which
is not among the sources: it is given the port, the direction and the gear ratio and
returns an error code. -/
def motor_Motor_make_new (pbio_motor_setup : Int → Int → float_t → pbio_error_t)
    (n_kw : Nat)
    (args : List mp_obj_t) : call_result motor_Motor_obj_t :=
  match make_new_arguments n_kw args with
  | .error e => ⟨[], .error e⟩
  | .ok (port, direction, gear_ratio) =>
    -- Configure the encoded motor with the selected arguments at pbio level
    let err := pbio_motor_setup port direction gear_ratio
    ⟨[.pb_thread_enter, .pbio_motor_setup port direction gear_ratio, .pb_thread_exit],
      (do
        pb_assert err
        pure ⟨port⟩)⟩

/-- Whether `pbio_motor_setup` is called in a trace. -/
def calls_setup (trace : List event) : Bool :=
  trace.any fun e =>
    match e with
    | .pbio_motor_setup _ _ _ => true
    | _ => false

/-! ### The gear argument as the specification describes it -/

/-- The specification's `GearTrainSpec`: a flat sequence of tooth counts, or a sequence of
such sequences, one per stage. -/
inductive GearTrainSpec where
  | flat (teeth : List Int)
  | nested (stages : List (List Int))

/-- The stages of a gear argument: a flat sequence is one stage. -/
def GearTrainSpec.stages : GearTrainSpec → List (List Int)
  | .flat teeth => [teeth]
  | .nested stages => stages

/-- The ratio a stage contributes: `last_teeth / first_teeth`. -/
def stage_ratio (teeth : List Int) : ℚ :=
  ((teeth.getLast?.getD 0 : Int) : ℚ) / ((teeth.head?.getD 0 : Int) : ℚ)

/-- The overall ratio of a gear argument: the product across its stages. -/
def GearTrainSpec.ratio (g : GearTrainSpec) : ℚ := (g.stages.map stage_ratio).prod

/-- The MicroPython object a caller passes for a gear argument. -/
def GearTrainSpec.to_obj : GearTrainSpec → mp_obj_t
  | .flat teeth => .seq (teeth.map .small_int)
  | .nested stages => .seq (stages.map fun teeth => .seq (teeth.map .small_int))

/-- Every stage has a first and a last tooth count, both in `1..32767`. -/
def GearTrainSpec.teeth_in_range (g : GearTrainSpec) : Prop :=
  ∀ teeth ∈ g.stages, ∃ first last : Int,
    teeth.head? = some first ∧ teeth.getLast? = some last ∧
    1 ≤ first ∧ first ≤ 32767 ∧ 1 ≤ last ∧ last ≤ 32767

/-- The disambiguation test in the specification's words: the outer sequence has a first
and a last element and both are plain integers. -/
def ends_are_plain_ints (trains : List mp_obj_t) : Bool :=
  match trains.head?, trains.getLast? with
  | some first, some last => MP_OBJ_IS_SMALL_INT first && MP_OBJ_IS_SMALL_INT last
  | _, _ => false

/-- One outer element of the gear argument unpacked as a stage of its own: the step of
"every outer element is unpacked as its own stage". -/
def include_stage (gear_ratio : float_t) (stage : mp_obj_t) : Except failure float_t := do
  include_train (← mp_obj_get_array stage) gear_ratio

/-- A pbio layer whose `pbio_motor_setup` accepts every configuration. -/
def setup_ok : Int → Int → float_t → pbio_error_t := fun _ _ _ => PBIO_SUCCESS

/-- A gear argument of `n + 1` stages: `n` stages `[1, 1]` and then the stage `[1, 2]`. -/
def stages_then_double (n : Nat) : GearTrainSpec :=
  .nested (List.replicate n [1, 1] ++ [[1, 2]])

/-- A gear argument of 32769 stages: 32768 stages `[1, 1]` and then the stage `[1, 2]`. -/
def many_stages : GearTrainSpec := stages_then_double 32768

/-! ## Cells of the log buffer that the logger accesses -/

/-- The cell indices that the loop `update_write_loop` writes, in order. -/
def update_write_loop_cells (num_values base : Nat) : Nat → Nat → List Nat
  | 0, _ => []
  | fuel + 1, i =>
    if i < num_values then
      (base + i) :: update_write_loop_cells num_values base fuel (to_uint8 (i + 1))
    else []

/-- The indices of the cells of `log->data` that `pbio_logger_update` writes when called on
`log`, in order: none unless the call samples; then the cell of the time and the cells of
the values. -/
def pbio_logger_update_cells (log : pbio_log_t) : List Nat :=
  if !log.active then []
  else if ((log.skipped + 1 : Nat) : Int) ≠ log.sample_div then []
  else if log.sampled > log.len then []
  else if log.sampled = log.len then []
  else
    (log.sampled * log.num_values.val) ::
      update_write_loop_cells log.num_values.val (log.sampled * log.num_values.val) 256
        NUM_DEFAULT_LOG_VALUES

/-- The cell indices that the loop `read_copy_loop` reads, in order. -/
def read_copy_loop_cells (num_values base : Nat) : Nat → Nat → List Nat
  | 0, _ => []
  | fuel + 1, i =>
    if i < num_values then
      (base + i) :: read_copy_loop_cells num_values base fuel (to_uint8 (i + 1))
    else []

/-- The indices of the cells of `log->data` that `pbio_logger_read` reads when called on
`log` with index `sindex`, in order: none when the call fails. -/
def pbio_logger_read_cells (log : pbio_log_t) (sindex : Int) : List Nat :=
  if sindex < -1 then []
  else
    let index : Nat :=
      if sindex < 0 then to_uint32 ((log.sampled : Int) - 1) else to_uint32 sindex
    if index ≥ log.sampled then []
    else read_copy_loop_cells log.num_values.val (index * log.num_values.val) 256 0

/-! ## Time synchronisation (`timesynch.c`) -/

/-- Conversion of an integer to `rtimer_clock_t`, an unsigned word of `M` values.  The
type is declared in the rtimer headers, which are not among the sources; its word size is
a parameter. -/
def to_rtimer_clock (M : Nat) (x : Int) : Nat := (x % (M : Int)).toNat

/-- The static variables of `timesynch.c` that `read_packet` works on. -/
structure timesynch_t where
  authority_level : Int
  offset : Nat
  deriving DecidableEq

/-- What the radio reports for one `mac->read()`: the length returned, and the variables
`simple_cc2420_authority_level_of_sender`, `simple_cc2420_time_of_departure` and
`simple_cc2420_time_of_arrival` of the driver. -/
structure mac_read_t where
  len : Int
  authority_level_of_sender : Int
  time_of_departure : Nat
  time_of_arrival : Nat

/-- `adjust_offset`. -/
def adjust_offset (M : Nat) (st : timesynch_t) (authoritative_time local_time : Nat) :
    timesynch_t :=
  { st with
    offset := to_rtimer_clock M ((st.offset : Int) + authoritative_time - local_time) }

/-- `read_packet`: the value returned and the static variables after the call. -/
def read_packet (M : Nat) (st : timesynch_t) (rd : mac_read_t) : Int × timesynch_t :=
  let len := rd.len
  if len = 0 then (0, st)
  else if rd.authority_level_of_sender < st.authority_level then
    let st1 := adjust_offset M st rd.time_of_departure rd.time_of_arrival
    if rd.authority_level_of_sender + 1 ≠ st1.authority_level then
      (len, { st1 with authority_level := rd.authority_level_of_sender + 1 })
    else (len, st1)
  else (len, st)

/-! ## Motor commands (`extmod/modmotor.c`) -/

/-- What the commands of `modmotor.c` take from code that is not among the sources: for
every call of a pbio function the error code it returns (`pbio_err`) and the value it
writes to its output parameter (`pbio_out`), the answer of `pbio_motor_has_encoder`, the
truth value `mp_obj_is_true` of the MicroPython runtime gives an object, the value of
`motor_control_active[PORT_TO_IDX(port)]` at the first, second, … read of a wait, and the
constant `PBIO_MOTOR_CONTROL_RUNNING_TIME`. -/
structure motor_env where
  pbio_err : pbio_fn → List Int → pbio_error_t
  pbio_out : pbio_fn → List Int → Int
  pbio_motor_has_encoder : Int → Bool
  mp_obj_is_true : mp_obj_t → Bool
  motor_control_active : Int → Nat → Int
  PBIO_MOTOR_CONTROL_RUNNING_TIME : Int

/-- Modelled from the spec: the enumerators of `pbio_motor_after_stop_t` of the pbio
headers, which are not among the sources; the specification names the stop actions
Coast, Brake and Hold, in this order. -/
def PBIO_MOTOR_STOP_COAST : Int := 0

/-- Modelled from the spec: the stop action Brake, see `PBIO_MOTOR_STOP_COAST`. -/
def PBIO_MOTOR_STOP_BRAKE : Int := 1

/-- Modelled from the spec: the stop action Hold, see `PBIO_MOTOR_STOP_COAST`. -/
def PBIO_MOTOR_STOP_HOLD : Int := 2

/-- Modelled from the spec: `get_port` of the Pybricks object helpers, which are not among
the sources: the port of the motor object a method is called on. -/
def get_port (self : motor_Motor_obj_t) : Int := self.port

/-- Modelled from the spec: `mp_obj_get_num` of the Pybricks object helpers, which are not
among the sources: the number a numeric argument stands for, or an exception.  Numbers
are whole numbers in the model. -/
def mp_obj_get_num (o : mp_obj_t) : Except failure Int := mp_obj_get_int o

/-- The C expression `args[i]` of a method for `i ≥ 1`: `args` holds the arguments after
`args[0]`, the motor object. -/
def method_arg (args : List mp_obj_t) (i : Nat) : Except failure mp_obj_t :=
  array_get args (i - 1)

/-- A command that returns `a` at once. -/
def call_result.pure {α : Type} (a : α) : call_result α := ⟨[], .ok a⟩

/-- A command followed by what is done with its value: when the first part fails, the
command ends there. -/
def call_result.bind {α β : Type} (r : call_result α) (k : α → call_result β) :
    call_result β :=
  match r.result with
  | .ok a => ⟨r.trace ++ (k a).trace, (k a).result⟩
  | .error e => ⟨r.trace, .error e⟩

instance : Monad call_result where
  pure := call_result.pure
  bind := call_result.bind

/-- A step that only the environment sees. -/
def emit (e : event) : call_result Unit := ⟨[e], .ok ()⟩

/-- A step that the environment does not see: a value, or an exception that ends the
command. -/
def raise_if {α : Type} (x : Except failure α) : call_result α := ⟨[], x⟩

/-- `pb_thread_enter()`. -/
def pb_thread_enter : call_result Unit := emit .pb_thread_enter

/-- `pb_thread_exit()`. -/
def pb_thread_exit : call_result Unit := emit .pb_thread_exit

/-- `mp_hal_delay_ms(ms)`. -/
def mp_hal_delay_ms (ms : Int) : call_result Unit := emit (.mp_hal_delay_ms ms)

/-- A call `err = fn(args)` of a pbio function. -/
def pbio_call (env : motor_env) (fn : pbio_fn) (args : List Int) : call_result pbio_error_t :=
  ⟨[.pbio fn args], .ok (env.pbio_err fn args)⟩

/-- The loop `while (motor_control_active[PORT_TO_IDX(port)] >= PBIO_MOTOR_CONTROL_RUNNING_TIME)`
of `wait_for_completion`, about to make read number `k` (from 0).  The first argument
bounds the number of reads. -/
def wait_for_completion_loop (env : motor_env) (port : Int) : Nat → Nat → call_result Unit
  | 0, _ => ⟨[], .error .out_of_fuel⟩
  | fuel + 1, k => do
    emit (.motor_control_active port)
    if env.motor_control_active port k ≥ env.PBIO_MOTOR_CONTROL_RUNNING_TIME then do
      mp_hal_delay_ms 10
      wait_for_completion_loop env port fuel (k + 1)
    else pure ()

/-- `wait_for_completion`; `fuel` bounds the number of reads of the state. -/
def wait_for_completion (env : motor_env) (fuel : Nat) (port : Int) (foreground : Bool) :
    call_result Unit :=
  if foreground then wait_for_completion_loop env port fuel 0 else pure ()

/-- `motor_Motor_duty`. -/
def motor_Motor_duty (env : motor_env) (self : motor_Motor_obj_t) (duty : mp_obj_t) :
    call_result Unit := do
  let port := get_port self
  let duty_cycle ← raise_if (mp_obj_get_num duty)
  pb_thread_enter
  let err ← pbio_call env .pbio_motor_set_duty_cycle_usr [port, duty_cycle]
  pb_thread_exit
  raise_if (pb_assert err)

/-- `motor_Motor_angle`. -/
def motor_Motor_angle (env : motor_env) (self : motor_Motor_obj_t) : call_result Int := do
  let port := get_port self
  pb_thread_enter
  let err ← pbio_call env .pbio_motor_get_angle [port]
  let angle := env.pbio_out .pbio_motor_get_angle [port]
  pb_thread_exit
  raise_if (pb_assert err)
  pure angle

/-- `motor_Motor_stalled`. -/
def motor_Motor_stalled (env : motor_env) (self : motor_Motor_obj_t) : call_result Bool := do
  let port := get_port self
  pb_thread_enter
  let err ← pbio_call env .pbio_motor_is_stalled [port]
  let stalled := decide (env.pbio_out .pbio_motor_is_stalled [port] ≠ 0)
  pb_thread_exit
  raise_if (pb_assert err)
  pure stalled

/-- `motor_Motor_reset_angle`. -/
def motor_Motor_reset_angle (env : motor_env) (self : motor_Motor_obj_t) (angle : mp_obj_t) :
    call_result Unit := do
  let port := get_port self
  let reset_angle := to_int32 (← raise_if (mp_obj_get_num angle))
  pb_thread_enter
  let err ← pbio_call env .pbio_motor_reset_angle [port, reset_angle]
  pb_thread_exit
  raise_if (pb_assert err)

/-- `motor_Motor_speed`. -/
def motor_Motor_speed (env : motor_env) (self : motor_Motor_obj_t) : call_result Int := do
  let port := get_port self
  pb_thread_enter
  let err ← pbio_call env .pbio_motor_get_angular_rate [port]
  let speed := env.pbio_out .pbio_motor_get_angular_rate [port]
  pb_thread_exit
  raise_if (pb_assert err)
  pure speed

/-- `motor_Motor_run`. -/
def motor_Motor_run (env : motor_env) (self : motor_Motor_obj_t) (speed_in : mp_obj_t) :
    call_result Unit := do
  let port := get_port self
  let speed := to_int32 (← raise_if (mp_obj_get_num speed_in))
  pb_thread_enter
  let err ← pbio_call env .pbio_motor_run [port, speed]
  pb_thread_exit
  raise_if (pb_assert err)

/-- `motor_Motor_stop`, a method of one or two arguments. -/
def motor_Motor_stop (env : motor_env) (self : motor_Motor_obj_t) (args : List mp_obj_t) :
    call_result Unit := do
  let n_args := args.length + 1
  raise_if (mp_arg_check_num n_args 0 1 2 false)
  -- Parse arguments and/or set default optional arguments
  let port := get_port self
  let after_stop ←
    if n_args > 1 then raise_if (do mp_obj_get_int (← method_arg args 1))
    else pure PBIO_MOTOR_STOP_COAST
  pb_thread_enter
  emit (.pbio .pbio_motor_has_encoder [port])
  if !env.pbio_motor_has_encoder port && after_stop == PBIO_MOTOR_STOP_HOLD then do
    pb_thread_exit
    raise_if (pb_assert PBIO_ERROR_INVALID_ARG)
  -- Call pbio with parsed user/default arguments
  let err ← pbio_call env .pbio_motor_stop [port, after_stop]
  pb_thread_exit
  raise_if (pb_assert err)

/-- The arguments of `motor_Motor_run_time`, `motor_Motor_run_angle` and
`motor_Motor_run_target` after the motor object, which the three methods parse alike: the
speed, the duration, angle or target, the stop action (by default Coast) and the
foreground flag (by default true). -/
def run_arguments (env : motor_env) (args : List mp_obj_t) :
    Except failure (Int × Int × Int × Bool) := do
  let n_args := args.length + 1
  mp_arg_check_num n_args 0 3 5 false
  let speed := to_int32 (← mp_obj_get_num (← method_arg args 1))
  let amount := to_int32 (← mp_obj_get_num (← method_arg args 2))
  let after_stop ←
    if n_args > 3 then (do mp_obj_get_int (← method_arg args 3))
    else pure PBIO_MOTOR_STOP_COAST
  let foreground ←
    if n_args > 4 then (do pure (env.mp_obj_is_true (← method_arg args 4)))
    else pure true
  pure (speed, amount, after_stop, foreground)

/-- The part that `motor_Motor_run_time`, `motor_Motor_run_angle` and
`motor_Motor_run_target` share once the arguments are parsed: the pbio call under the
thread lock, `pb_assert(err)`, and `wait_for_completion(port, foreground)`. -/
def call_and_wait (env : motor_env) (fuel : Nat) (port : Int) (fn : pbio_fn)
    (fargs : List Int) (foreground : Bool) : call_result Unit := do
  pb_thread_enter
  -- Call pbio with parsed user/default arguments
  let err ← pbio_call env fn fargs
  pb_thread_exit
  raise_if (pb_assert err)
  wait_for_completion env fuel port foreground

/-- `motor_Motor_run_time`, a method of three to five arguments. -/
def motor_Motor_run_time (env : motor_env) (fuel : Nat) (self : motor_Motor_obj_t)
    (args : List mp_obj_t) : call_result Unit := do
  let port := get_port self
  let (speed, duration, after_stop, foreground) ← raise_if (run_arguments env args)
  call_and_wait env fuel port .pbio_motor_run_time [port, speed, duration, after_stop]
    foreground

/-- `motor_Motor_run_angle`, a method of three to five arguments. -/
def motor_Motor_run_angle (env : motor_env) (fuel : Nat) (self : motor_Motor_obj_t)
    (args : List mp_obj_t) : call_result Unit := do
  let port := get_port self
  let (speed, angle, after_stop, foreground) ← raise_if (run_arguments env args)
  call_and_wait env fuel port .pbio_motor_run_angle [port, speed, angle, after_stop]
    foreground

/-- `motor_Motor_run_target`, a method of three to five arguments. -/
def motor_Motor_run_target (env : motor_env) (fuel : Nat) (self : motor_Motor_obj_t)
    (args : List mp_obj_t) : call_result Unit := do
  let port := get_port self
  let (speed, target, after_stop, foreground) ← raise_if (run_arguments env args)
  call_and_wait env fuel port .pbio_motor_run_target [port, speed, target, after_stop]
    foreground

/-- The DC settings of a motor: the stall-torque limit and the duty offset. -/
structure dc_settings where
  stall_torque_limit : Int
  duty_offset : Int
  deriving DecidableEq

/-- The arguments of `motor_Motor_run_until_stalled` after the motor object: the speed,
the stop action (by default Coast), whether the duty limit is overridden, and the
temporary stall duty (by default 100). -/
def run_until_stalled_arguments (args : List mp_obj_t) :
    Except failure (Int × Int × Bool × Int) := do
  let n_args := args.length + 1
  mp_arg_check_num n_args 0 2 4 false
  let speed := to_int32 (← mp_obj_get_num (← method_arg args 1))
  let after_stop ←
    if n_args > 2 then (do mp_obj_get_int (← method_arg args 2))
    else pure PBIO_MOTOR_STOP_COAST
  let override_duty_limit := decide (n_args > 3)
  let temporary_stall_duty ←
    if override_duty_limit then (do pure (to_int32 (← mp_obj_get_num (← method_arg args 3))))
    else pure 100
  pure (speed, after_stop, override_duty_limit, temporary_stall_duty)

/-- `motor_Motor_run_until_stalled`, a method of two to four arguments.  `dc` holds the DC
settings of the port when the command is called: they are what
`pbio_motor_get_dc_settings` writes to `old_stall_duty` and `old_duty_offset`. -/
def motor_Motor_run_until_stalled (env : motor_env) (dc : dc_settings) (fuel : Nat)
    (self : motor_Motor_obj_t) (args : List mp_obj_t) : call_result Int := do
  let port := get_port self
  let (speed, after_stop, override_duty_limit, temporary_stall_duty) ←
    raise_if (run_until_stalled_arguments args)
  let old_stall_duty := dc.stall_torque_limit
  let old_duty_offset := dc.duty_offset
  pb_thread_enter
  if override_duty_limit then do
    emit (.pbio .pbio_motor_get_dc_settings [port])
    emit (.pbio .pbio_motor_set_dc_settings [port, temporary_stall_duty, old_duty_offset])
  -- Call pbio with parsed user/default arguments
  let err ← pbio_call env .pbio_motor_run_until_stalled [port, speed, after_stop]
  pb_thread_exit
  raise_if (pb_assert err)
  wait_for_completion env fuel port true
  pb_thread_enter
  -- Read the angle upon completion of the stall maneuver
  emit (.pbio .pbio_motor_get_angle [port])
  let stall_point := env.pbio_out .pbio_motor_get_angle [port]
  if override_duty_limit then
    -- Return stall settings to old values if they were changed
    emit (.pbio .pbio_motor_set_dc_settings [port, old_stall_duty, old_duty_offset])
  pb_thread_exit
  -- Return angle at which the motor stalled
  pure stall_point

/-- `motor_Motor_track_target`. -/
def motor_Motor_track_target (env : motor_env) (self : motor_Motor_obj_t)
    (target : mp_obj_t) : call_result Unit := do
  let port := get_port self
  let target_ := to_int32 (← raise_if (mp_obj_get_num target))
  pb_thread_enter
  let err ← pbio_call env .pbio_motor_track_target [port, target_]
  pb_thread_exit
  raise_if (pb_assert err)

/-- `motor_Motor_set_run_settings`, a method of exactly three arguments. -/
def motor_Motor_set_run_settings (env : motor_env) (self : motor_Motor_obj_t)
    (arg1 arg2 : mp_obj_t) : call_result Unit := do
  let port := get_port self
  let max_speed := to_int32 (← raise_if (mp_obj_get_num arg1))
  let acceleration := to_int32 (← raise_if (mp_obj_get_num arg2))
  pb_thread_enter
  let err ← pbio_call env .pbio_motor_set_run_settings [port, max_speed, acceleration]
  pb_thread_exit
  raise_if (pb_assert err)

/-- `motor_Motor_set_dc_settings`, a method of exactly three arguments. -/
def motor_Motor_set_dc_settings (env : motor_env) (self : motor_Motor_obj_t)
    (arg1 arg2 : mp_obj_t) : call_result Unit := do
  let port := get_port self
  let stall_torque_limit_pct := to_int32 (← raise_if (mp_obj_get_num arg1))
  let duty_offset_pct := to_int32 (← raise_if (mp_obj_get_num arg2))
  pb_thread_enter
  let err ← pbio_call env .pbio_motor_set_dc_settings
    [port, stall_torque_limit_pct, duty_offset_pct]
  pb_thread_exit
  raise_if (pb_assert err)

/-- `motor_Motor_set_pid_settings`, a method of exactly nine arguments. -/
def motor_Motor_set_pid_settings (env : motor_env) (self : motor_Motor_obj_t)
    (arg1 arg2 arg3 arg4 arg5 arg6 arg7 arg8 : mp_obj_t) : call_result Unit := do
  let port := get_port self
  let kp := to_int16 (← raise_if (mp_obj_get_num arg1))
  let ki := to_int16 (← raise_if (mp_obj_get_num arg2))
  let kd := to_int16 (← raise_if (mp_obj_get_num arg3))
  let loop_time := to_int16 (← raise_if (mp_obj_get_num arg4))
  let pos_tolerance := to_int16 (← raise_if (mp_obj_get_num arg5))
  let speed_tolerance := to_int16 (← raise_if (mp_obj_get_num arg6))
  let stall_speed_limit := to_int16 (← raise_if (mp_obj_get_num arg7))
  let stall_time := to_int16 (← raise_if (mp_obj_get_num arg8))
  pb_thread_enter
  let err ← pbio_call env .pbio_motor_set_pid_settings
    [port, kp, ki, kd, loop_time, pos_tolerance, speed_tolerance, stall_speed_limit,
      stall_time]
  pb_thread_exit
  raise_if (pb_assert err)

/-! ### The thread lock and the DC settings along a trace -/

/-- The thread lock after one event, `none` when the event breaks the discipline: the
lock is taken only when free, released only when held, and `mp_hal_delay_ms` is called
only when the lock is free. -/
def lock_step (held : Bool) : event → Option Bool
  | .pb_thread_enter => if held then none else some true
  | .pb_thread_exit => if held then some false else none
  | .mp_hal_delay_ms _ => if held then none else some false
  | _ => some held

/-- The thread lock after a trace that starts with the lock in state `held`, `none` when
an event of the trace breaks the discipline. -/
def lock_run (held : Bool) (trace : List event) : Option Bool :=
  trace.foldlM lock_step held

/-- Modelled from the spec: the effect of pbio calls on the DC settings of `port`.  The
functions are not among the sources; by the specification the DC settings are the
stall-torque limit and the duty offset of the motor, and the settings mutator validates
its input and reports `InvalidArgument` for malformed settings.  A call of
`pbio_motor_set_dc_settings` that reports success replaces the settings of its port, a
call that reports an error changes nothing, and no other call of a command changes
them.  The error code of the call is the one the pbio layer `env` gives. -/
def dc_after_event (env : motor_env) (port : Int) (dc : dc_settings) : event → dc_settings
  | .pbio .pbio_motor_set_dc_settings [p, stall_torque_limit, duty_offset] =>
    if p = port ∧
        env.pbio_err .pbio_motor_set_dc_settings [p, stall_torque_limit, duty_offset] =
          PBIO_SUCCESS then
      ⟨stall_torque_limit, duty_offset⟩
    else dc
  | _ => dc

/-- The DC settings of `port` after a trace that starts with the settings `dc`. -/
def dc_after (env : motor_env) (port : Int) (dc : dc_settings) (trace : List event) :
    dc_settings :=
  trace.foldl (dc_after_event env port) dc

/-- Whether an event is a call of the pbio function `fn`. -/
def calls_pbio (fn : pbio_fn) : event → Bool
  | .pbio f _ => decide (f = fn)
  | _ => false

/-- Whether an event belongs to a wait: a read of the control state or a sleep. -/
def is_wait_event : event → Bool
  | .motor_control_active _ => true
  | .mp_hal_delay_ms _ => true
  | _ => false

/-- A pbio layer in which every call succeeds and the control state of every port is seen
running at the first two reads and finished from the third on. -/
def env_ok : motor_env :=
  { pbio_err := fun _ _ => PBIO_SUCCESS
    pbio_out := fun _ _ => 360
    pbio_motor_has_encoder := fun _ => true
    mp_obj_is_true := fun o => MP_OBJ_IS_SMALL_INT o
    motor_control_active := fun _ k => if k < 2 then 3 else 0
    PBIO_MOTOR_CONTROL_RUNNING_TIME := 3 }

/-- A pbio layer like `env_ok` for a motor without encoder whose pbio calls fail with
`PBIO_ERROR_IO`. -/
def env_failing : motor_env :=
  { env_ok with
    pbio_err := fun _ _ => PBIO_ERROR_IO
    pbio_motor_has_encoder := fun _ => false }

/-- A pbio layer like `env_ok` in which `pbio_motor_run_until_stalled` fails with
`PBIO_ERROR_IO` and every other call succeeds. -/
def env_stall_failing : motor_env :=
  { env_ok with
    pbio_err := fun fn _ =>
      if fn = .pbio_motor_run_until_stalled then PBIO_ERROR_IO else PBIO_SUCCESS }

/-- The trace of `n` polls that see the maneuver running: a read of the control state and
a sleep of 10 ms, `n` times. -/
def polls (port : Int) : Nat → List event
  | 0 => []
  | n + 1 => .motor_control_active port :: .mp_hal_delay_ms 10 :: polls port n

/-- A command keeps the lock discipline from the lock state `held`: its trace breaks no
rule, leaves the lock in state `held1` when the command returns a value, and leaves the
lock free when the command ends with an exception or is still waiting. -/
def lock_safe {α : Type} (held held1 : Bool) (r : call_result α) : Prop :=
  match r.result with
  | .ok _ => lock_run held r.trace = some held1
  | .error _ => lock_run held r.trace = some false

/-! ## Lemmas on the logger -/

theorem to_uint8_succ {i n : Nat} (h : i < n) (hn : n ≤ 255) : to_uint8 (i + 1) = i + 1 := by
  unfold to_uint8
  omega

theorem update_write_loop_apply (nv base : Nat) (buf : Nat → Int) (hnv : nv ≤ 255) :
    ∀ (fuel i : Nat) (data : Nat → Int), nv ≤ fuel + i → ∀ j,
      update_write_loop nv base buf fuel i data j =
        if base + i ≤ j ∧ j < base + nv then buf (j - base - NUM_DEFAULT_LOG_VALUES)
        else data j := by
  intro fuel
  induction fuel with
  | zero =>
    intro i data h j
    have : ¬ (base + i ≤ j ∧ j < base + nv) := by omega
    simp [update_write_loop, this]
  | succ fuel ih =>
    intro i data h j
    unfold update_write_loop
    by_cases hi : i < nv
    · rw [if_pos hi, to_uint8_succ hi hnv, ih (i + 1) _ (by omega) j]
      by_cases hj : j = base + i
      · subst hj
        have h1 : ¬ (base + (i + 1) ≤ base + i ∧ base + i < base + nv) := by omega
        have h2 : base + i ≤ base + i ∧ base + i < base + nv := by omega
        rw [if_neg h1, if_pos h2, Function.update_same]
        congr 1
        unfold NUM_DEFAULT_LOG_VALUES
        omega
      · rw [Function.update_noteq hj]
        by_cases hc : base + i ≤ j ∧ j < base + nv
        · have hc2 : base + (i + 1) ≤ j ∧ j < base + nv := by omega
          rw [if_pos hc, if_pos hc2]
        · have hc2 : ¬ (base + (i + 1) ≤ j ∧ j < base + nv) := by omega
          rw [if_neg hc, if_neg hc2]
    · have hc : ¬ (base + i ≤ j ∧ j < base + nv) := by omega
      rw [if_neg hi, if_neg hc]

theorem read_copy_loop_apply (nv base : Nat) (data : Nat → Int) (hnv : nv ≤ 255) :
    ∀ (fuel i : Nat) (buf : Nat → Int), nv ≤ fuel + i → ∀ j,
      read_copy_loop nv base data fuel i buf j =
        if i ≤ j ∧ j < nv then data (base + j) else buf j := by
  intro fuel
  induction fuel with
  | zero =>
    intro i buf h j
    have : ¬ (i ≤ j ∧ j < nv) := by omega
    simp [read_copy_loop, this]
  | succ fuel ih =>
    intro i buf h j
    unfold read_copy_loop
    by_cases hi : i < nv
    · rw [if_pos hi, to_uint8_succ hi hnv, ih (i + 1) _ (by omega) j]
      by_cases hj : j = i
      · subst hj
        have h1 : ¬ (j + 1 ≤ j ∧ j < nv) := by omega
        have h2 : j ≤ j ∧ j < nv := by omega
        rw [if_neg h1, if_pos h2, Function.update_same]
      · rw [Function.update_noteq hj]
        by_cases hc : i ≤ j ∧ j < nv
        · have hc2 : i + 1 ≤ j ∧ j < nv := by omega
          rw [if_pos hc, if_pos hc2]
        · have hc2 : ¬ (i + 1 ≤ j ∧ j < nv) := by omega
          rw [if_neg hc, if_neg hc2]
    · have hc : ¬ (i ≤ j ∧ j < nv) := by omega
      rw [if_neg hi, if_neg hc]

theorem run_updates_snoc (log : pbio_log_t) (calls : List update_call) (c : update_call) :
    run_updates log (calls ++ [c]) =
      pbio_logger_update (run_updates log calls) c.values c.now := by
  simp [run_updates, List.foldl_append]

/-- The state of a session `n` updates after `pbio_logger_start` with capacity `L` and a
divisor `d ≥ 1`: while active, `n = sampled * d + skipped` with `skipped < d` and
`sampled ≤ L`; once inactive, `sampled = L`, the skip counter is zero and at least
`(L + 1) * d` updates were made. -/
theorem run_updates_start_inv (log : pbio_log_t) (buf : Nat → Int) (L d : Nat) (now : Int)
    (hd : 1 ≤ d) (calls : List update_call) :
    (run_updates (pbio_logger_start log buf L d now) calls).len = L ∧
    (run_updates (pbio_logger_start log buf L d now) calls).sample_div = (d : Int) ∧
    (((run_updates (pbio_logger_start log buf L d now) calls).active = true ∧
        (run_updates (pbio_logger_start log buf L d now) calls).skipped < d ∧
        (run_updates (pbio_logger_start log buf L d now) calls).sampled ≤ L ∧
        calls.length = (run_updates (pbio_logger_start log buf L d now) calls).sampled * d +
          (run_updates (pbio_logger_start log buf L d now) calls).skipped) ∨
      ((run_updates (pbio_logger_start log buf L d now) calls).active = false ∧
        (run_updates (pbio_logger_start log buf L d now) calls).skipped = 0 ∧
        (run_updates (pbio_logger_start log buf L d now) calls).sampled = L ∧
        (L + 1) * d ≤ calls.length)) := by
  induction calls using List.reverseRecOn with
  | nil =>
    refine ⟨rfl, rfl, Or.inl ⟨rfl, ?_, ?_, ?_⟩⟩
    · show 0 < d
      omega
    · show 0 ≤ L
      omega
    · simp [run_updates, pbio_logger_start]
  | append_singleton calls c ih =>
    rw [run_updates_snoc]
    generalize run_updates (pbio_logger_start log buf L d now) calls = st at ih
    obtain ⟨hlen, hdiv, hcase⟩ := ih
    rw [List.length_append, List.length_singleton]
    rcases hcase with ⟨hact, hsk, hsam, hn⟩ | ⟨hact, hsk, hsam, hn⟩
    · unfold pbio_logger_update
      simp only [hact, Bool.not_true, Bool.false_eq_true, if_false, hdiv, hlen]
      by_cases h1 : ((st.skipped + 1 : Nat) : Int) ≠ (d : Int)
      · rw [if_pos h1]
        have h1' : st.skipped + 1 ≠ d := fun h => h1 (by rw [h])
        refine ⟨rfl, rfl, Or.inl ⟨rfl, ?_, hsam, ?_⟩⟩
        · show st.skipped + 1 < d
          omega
        · show calls.length + 1 = st.sampled * d + (st.skipped + 1)
          omega
      · rw [if_neg h1]
        have h1' : st.skipped + 1 = d := by
          have := not_not.mp h1
          exact_mod_cast this
        have hgt : ¬ st.sampled > L := by omega
        rw [if_neg hgt]
        by_cases h2 : st.sampled = L
        · rw [if_pos h2]
          refine ⟨rfl, rfl, Or.inr ⟨rfl, rfl, h2, ?_⟩⟩
          rw [Nat.add_mul, ← h2]
          omega
        · rw [if_neg h2]
          refine ⟨rfl, rfl, Or.inl ⟨rfl, ?_, ?_, ?_⟩⟩
          · show 0 < d
            omega
          · show st.sampled + 1 ≤ L
            omega
          · show calls.length + 1 = (st.sampled + 1) * d + 0
            rw [Nat.add_mul]
            omega
    · have hstep : pbio_logger_update st c.values c.now = st := by
        unfold pbio_logger_update
        simp [hact]
      rw [hstep]
      exact ⟨hlen, hdiv, Or.inr ⟨hact, hsk, hsam, by omega⟩⟩

/-- The number of rows `n` updates after a start, as a natural number. -/
theorem run_updates_start_sampled (log : pbio_log_t) (buf : Nat → Int) (L d : Nat) (now : Int)
    (hd : 1 ≤ d) (calls : List update_call) :
    (run_updates (pbio_logger_start log buf L d now) calls).sampled =
      min (calls.length / d) L := by
  obtain ⟨-, -, hcase⟩ := run_updates_start_inv log buf L d now hd calls
  rcases hcase with ⟨-, hsk, hsam, hn⟩ | ⟨-, -, hsam, hn⟩
  · have hq : calls.length / d =
        (run_updates (pbio_logger_start log buf L d now) calls).sampled := by
      rw [hn, Nat.add_comm, Nat.add_mul_div_right _ _ (by omega : 0 < d),
        Nat.div_eq_of_lt hsk, Nat.zero_add]
    rw [hq]
    exact (Nat.min_eq_left hsam).symm
  · have hq : L + 1 ≤ calls.length / d := (Nat.le_div_iff_mul_le (by omega : 0 < d)).mpr hn
    rw [hsam]
    exact (Nat.min_eq_right (by omega)).symm

/-- The `int32_t` value of a clock difference is the elapsed time `E` whenever `E` is below
`2^31` and the two clock readings are `E` apart modulo `2^32`, whether or not the 32-bit
clock wrapped around in between. -/
theorem to_int32_elapsed (t start E : Int) (h0 : 0 ≤ E) (h1 : E < 2147483648)
    (hE : (t - start - E) % 4294967296 = 0) : to_int32 (t - start) = E := by
  unfold to_int32
  omega

/-- The cells of the log buffer after a sampling update: the row at `sampled * num_values`
holds the elapsed time and then the caller's values; the other cells are as before. -/
theorem pbio_logger_update_sample_data (log : pbio_log_t) (v : Nat → Int) (t : Int)
    (hact : log.active = true)
    (hskip : ((log.skipped + 1 : Nat) : Int) = log.sample_div)
    (hlt : log.sampled < log.len) (j : Nat) :
    (pbio_logger_update log v t).data j =
      if log.sampled * log.num_values.val + 1 ≤ j ∧
          j < log.sampled * log.num_values.val + log.num_values.val then
        v (j - log.sampled * log.num_values.val - 1)
      else if j = log.sampled * log.num_values.val then to_int32 (t - log.start)
      else log.data j := by
  have hnv : log.num_values.val ≤ 255 := by
    have := log.num_values.isLt
    omega
  have h1 : ¬ log.sampled > log.len := by omega
  have h2 : ¬ log.sampled = log.len := by omega
  unfold pbio_logger_update
  simp only [hact, Bool.not_true, Bool.false_eq_true, if_false, hskip, ne_eq,
    not_true_eq_false, h1, h2]
  rw [update_write_loop_apply _ _ _ hnv 256 NUM_DEFAULT_LOG_VALUES _ (by omega) j]
  simp only [NUM_DEFAULT_LOG_VALUES, Function.update_apply]

/-- The row written by a sampling update, cell by cell, and the cells it leaves alone. -/
theorem pbio_logger_update_sample_row (log : pbio_log_t) (v : Nat → Int) (t : Int)
    (hact : log.active = true)
    (hskip : ((log.skipped + 1 : Nat) : Int) = log.sample_div)
    (hlt : log.sampled < log.len) :
    (pbio_logger_update log v t).data (log.sampled * log.num_values.val) =
      to_int32 (t - log.start) ∧
    (∀ i, 1 ≤ i → i < log.num_values.val →
      (pbio_logger_update log v t).data (log.sampled * log.num_values.val + i) =
        v (i - 1)) ∧
    (∀ j, j ≠ log.sampled * log.num_values.val →
      (∀ i, 1 ≤ i → i < log.num_values.val → j ≠ log.sampled * log.num_values.val + i) →
      (pbio_logger_update log v t).data j = log.data j) := by
  refine ⟨?_, ?_, ?_⟩
  · rw [pbio_logger_update_sample_data log v t hact hskip hlt]
    rw [if_neg (by omega), if_pos rfl]
  · intro i hi1 hi2
    rw [pbio_logger_update_sample_data log v t hact hskip hlt]
    rw [if_pos (by omega)]
    congr 1
    omega
  · intro j hj hji
    rw [pbio_logger_update_sample_data log v t hact hskip hlt]
    have hout : ¬ (log.sampled * log.num_values.val + 1 ≤ j ∧
        j < log.sampled * log.num_values.val + log.num_values.val) := by
      rintro ⟨ha, hb⟩
      exact hji (j - log.sampled * log.num_values.val) (by omega) (by omega) (by omega)
    rw [if_neg hout, if_neg hj]

/-- The counters after a sampling update. -/
theorem pbio_logger_update_sample_fields (log : pbio_log_t) (v : Nat → Int) (t : Int)
    (hact : log.active = true)
    (hskip : ((log.skipped + 1 : Nat) : Int) = log.sample_div)
    (hlt : log.sampled < log.len) :
    (pbio_logger_update log v t).sampled = log.sampled + 1 ∧
    (pbio_logger_update log v t).skipped = 0 ∧
    (pbio_logger_update log v t).active = true ∧
    (pbio_logger_update log v t).len = log.len ∧
    (pbio_logger_update log v t).sample_div = log.sample_div ∧
    (pbio_logger_update log v t).start = log.start ∧
    (pbio_logger_update log v t).num_values = log.num_values := by
  have h1 : ¬ log.sampled > log.len := by omega
  have h2 : ¬ log.sampled = log.len := by omega
  unfold pbio_logger_update
  simp only [hact, Bool.not_true, Bool.false_eq_true, if_false, hskip, ne_eq,
    not_true_eq_false, h1, h2, and_self]

theorem to_uint32_of_nat {k : Nat} (hk : k < 4294967296) : to_uint32 (k : Int) = k := by
  unfold to_uint32
  omega

/-- A successful read of row `k`: the first `num_values` cells of the caller's buffer
receive the cells of row `k`, the rest of the buffer and the log are untouched. -/
theorem pbio_logger_read_row (log : pbio_log_t) (k : Nat) (out : Nat → Int)
    (hk : k < log.sampled) (hk32 : k < 4294967296) :
    (pbio_logger_read log (k : Int) out).err = PBIO_SUCCESS ∧
    (∀ i, (pbio_logger_read log (k : Int) out).buf i =
      if i < log.num_values.val then log.data (k * log.num_values.val + i) else out i) ∧
    (pbio_logger_read log (k : Int) out).log = log := by
  have hnv : log.num_values.val ≤ 255 := by
    have := log.num_values.isLt
    omega
  have h1 : ¬ ((k : Int) < -1) := by omega
  have h2 : ¬ ((k : Int) < 0) := by omega
  have h3 : ¬ (k ≥ log.sampled) := by omega
  unfold pbio_logger_read
  simp only [h1, h2, if_false, to_uint32_of_nat hk32, h3]
  refine ⟨trivial, ?_, trivial⟩
  intro i
  rw [read_copy_loop_apply _ _ _ hnv 256 0 out (by omega) i]
  simp

theorem keeps_rows_refl (log : pbio_log_t) : keeps_rows log log :=
  ⟨rfl, Nat.le_refl _, fun _ _ => rfl, rfl⟩

theorem keeps_rows_trans {a b c : pbio_log_t} (h1 : keeps_rows a b) (h2 : keeps_rows b c) :
    keeps_rows a c := by
  obtain ⟨hn1, hs1, hd1, ht1⟩ := h1
  obtain ⟨hn2, hs2, hd2, ht2⟩ := h2
  refine ⟨hn2.trans hn1, Nat.le_trans hs1 hs2, ?_, ht2.trans ht1⟩
  intro j hj
  rw [hd2 j, hd1 j hj]
  rw [hn1]
  exact Nat.lt_of_lt_of_le hj (Nat.mul_le_mul_right _ hs1)

theorem pbio_logger_update_keeps_rows (log : pbio_log_t) (v : Nat → Int) (t : Int) :
    keeps_rows log (pbio_logger_update log v t) := by
  by_cases hact : log.active = true
  · by_cases hskip : ((log.skipped + 1 : Nat) : Int) = log.sample_div
    · by_cases hlt : log.sampled < log.len
      · obtain ⟨hs, -, -, -, -, hst, hn⟩ :=
          pbio_logger_update_sample_fields log v t hact hskip hlt
        refine ⟨hn, by omega, ?_, hst⟩
        intro j hj
        rw [pbio_logger_update_sample_data log v t hact hskip hlt j]
        rw [if_neg (by omega), if_neg (by omega)]
      · have h : pbio_logger_update log v t = { log with skipped := 0, active := false } := by
          unfold pbio_logger_update
          by_cases hgt : log.sampled > log.len
          · simp [hact, hskip, hgt]
          · have heq : log.sampled = log.len := by omega
            simp [hact, hskip, heq]
        rw [h]
        exact ⟨rfl, Nat.le_refl _, fun _ _ => rfl, rfl⟩
    · have h : pbio_logger_update log v t = { log with skipped := log.skipped + 1 } := by
        unfold pbio_logger_update
        rw [if_neg (by simp [hact]), if_pos hskip]
      rw [h]
      exact ⟨rfl, Nat.le_refl _, fun _ _ => rfl, rfl⟩
  · have h : pbio_logger_update log v t = log := by
      unfold pbio_logger_update
      simp [hact]
    rw [h]
    exact keeps_rows_refl log

theorem pbio_logger_read_log (log : pbio_log_t) (sindex : Int) (out : Nat → Int) :
    (pbio_logger_read log sindex out).log = log := by
  unfold pbio_logger_read
  by_cases h1 : sindex < -1
  · rw [if_pos h1]
  · rw [if_neg h1]
    dsimp only
    split <;> split <;> rfl

theorem logger_op_apply_keeps_rows (log : pbio_log_t) (op : logger_op)
    (h : op.restarts = false) : keeps_rows log (logger_op.apply log op) := by
  cases op with
  | update values now => exact pbio_logger_update_keeps_rows log values now
  | stop => exact ⟨rfl, Nat.le_refl _, fun _ _ => rfl, rfl⟩
  | read sindex buf =>
    show keeps_rows log (pbio_logger_read log sindex buf).log
    rw [pbio_logger_read_log]
    exact keeps_rows_refl log
  | rows => exact keeps_rows_refl log
  | cols => exact keeps_rows_refl log
  | start buf len div now => simp [logger_op.restarts] at h

theorem run_ops_keeps_rows (ops : List logger_op) :
    ∀ log : pbio_log_t, (∀ op ∈ ops, op.restarts = false) → keeps_rows log (run_ops log ops) := by
  induction ops with
  | nil => intro log _; exact keeps_rows_refl log
  | cons op ops ih =>
    intro log h
    have h1 := logger_op_apply_keeps_rows log op (h op (List.mem_cons_self _ _))
    have h2 := ih (logger_op.apply log op) (fun o ho => h o (List.mem_cons_of_mem _ ho))
    exact keeps_rows_trans h1 h2

theorem pbio_logger_update_num_values (log : pbio_log_t) (v : Nat → Int) (t : Int) :
    (pbio_logger_update log v t).num_values = log.num_values :=
  (pbio_logger_update_keeps_rows log v t).1

theorem pbio_logger_update_capacity (log : pbio_log_t) (v : Nat → Int) (t : Int)
    (h : log.sampled ≤ log.len) :
    (pbio_logger_update log v t).sampled ≤ (pbio_logger_update log v t).len := by
  unfold pbio_logger_update
  split_ifs with h1 h2 h3 h4
  · exact h
  · exact h
  · exact h
  · exact h
  · show log.sampled + 1 ≤ log.len
    omega

theorem logger_op_apply_num_values (log : pbio_log_t) (op : logger_op) :
    (logger_op.apply log op).num_values = log.num_values := by
  cases op with
  | update values now => exact pbio_logger_update_num_values log values now
  | stop => rfl
  | read sindex buf =>
    show (pbio_logger_read log sindex buf).log.num_values = log.num_values
    rw [pbio_logger_read_log]
  | rows => rfl
  | cols => rfl
  | start buf len div now => rfl

theorem logger_op_apply_capacity (log : pbio_log_t) (op : logger_op)
    (h : log.sampled ≤ log.len) :
    (logger_op.apply log op).sampled ≤ (logger_op.apply log op).len := by
  cases op with
  | update values now => exact pbio_logger_update_capacity log values now h
  | stop => exact h
  | read sindex buf =>
    show (pbio_logger_read log sindex buf).log.sampled ≤
      (pbio_logger_read log sindex buf).log.len
    rw [pbio_logger_read_log]
    exact h
  | rows => exact h
  | cols => exact h
  | start buf len div now => exact Nat.zero_le _

theorem run_ops_capacity (ops : List logger_op) :
    ∀ log : pbio_log_t, log.sampled ≤ log.len →
      (run_ops log ops).sampled ≤ (run_ops log ops).len ∧
      (run_ops log ops).num_values = log.num_values := by
  induction ops with
  | nil => intro log h; exact ⟨h, rfl⟩
  | cons op ops ih =>
    intro log h
    obtain ⟨h1, h2⟩ := ih (logger_op.apply log op) (logger_op_apply_capacity log op h)
    exact ⟨h1, h2.trans (logger_op_apply_num_values log op)⟩

/-- An update of a log whose row count has reached the capacity writes no cell and adds
no row. -/
theorem pbio_logger_update_full (log : pbio_log_t) (v : Nat → Int) (t : Int)
    (hfull : log.len ≤ log.sampled) :
    (pbio_logger_update log v t).data = log.data ∧
    (pbio_logger_update log v t).sampled = log.sampled ∧
    (pbio_logger_update log v t).len = log.len := by
  unfold pbio_logger_update
  split_ifs with h1 h2 h3 h4
  · exact ⟨rfl, rfl, rfl⟩
  · exact ⟨rfl, rfl, rfl⟩
  · exact ⟨rfl, rfl, rfl⟩
  · exact ⟨rfl, rfl, rfl⟩
  · omega

theorem run_updates_full (calls : List update_call) :
    ∀ log : pbio_log_t, log.len ≤ log.sampled →
      (run_updates log calls).data = log.data ∧
      (run_updates log calls).sampled = log.sampled := by
  induction calls with
  | nil => intro log _; exact ⟨rfl, rfl⟩
  | cons c calls ih =>
    intro log h
    obtain ⟨hd, hs, hl⟩ := pbio_logger_update_full log c.values c.now h
    obtain ⟨hd2, hs2⟩ := ih (pbio_logger_update log c.values c.now) (by rw [hs, hl]; exact h)
    exact ⟨hd2.trans hd, hs2.trans hs⟩

/-! ## Lemmas on the motor constructor -/

theorem to_int16_of_range {x : Int} (h1 : -32768 ≤ x) (h2 : x ≤ 32767) : to_int16 x = x := by
  unfold to_int16
  omega

theorem array_get_of_lt (items : List mp_obj_t) (i : Nat) (h : i < items.length) :
    array_get items i = .ok items[i] := by
  unfold array_get
  rw [List.getElem?_eq_getElem h]

theorem array_get_of_le (items : List mp_obj_t) (i : Nat) (h : items.length ≤ i) :
    array_get items i = .error .out_of_bounds := by
  unfold array_get
  rw [List.getElem?_eq_none h]

/-- A loop entered with a negative counter ends at once. -/
theorem gear_train_loop_neg (is_one_train : Bool) (trains : List mp_obj_t) (n_trains : Nat)
    (fuel : Nat) (train : Int) (gears : List mp_obj_t) (r : float_t) (h : train < 0) :
    gear_train_loop is_one_train trains n_trains (fuel + 1) train gears r = .ok r := by
  unfold gear_train_loop
  rw [if_neg (by omega)]
  rfl

/-- The loop over a list of gear trains: the stages at the indices an `int16_t` counter
reaches, which are the first 32768, are included one after the other. -/
theorem gear_train_loop_nested (trains : List mp_obj_t) :
    ∀ (fuel k : Nat) (gears : List mp_obj_t) (r : float_t), k ≤ trains.length → k < 32768 →
      min trains.length 32768 < fuel + k →
      gear_train_loop false trains trains.length fuel (k : Int) gears r =
        ((trains.drop k).take (32768 - k)).foldlM include_stage r := by
  intro fuel
  induction fuel with
  | zero =>
    intro k gears r h1 h2 h3
    omega
  | succ fuel ih =>
    intro k gears r h1 h2 h3
    unfold gear_train_loop
    by_cases hk : k < trains.length
    · have hcond : 0 ≤ (k : Int) ∧ (k : Int).toNat < trains.length := by
        constructor
        · omega
        · rw [Int.toNat_ofNat]
          exact hk
      rw [if_pos hcond, Int.toNat_ofNat, List.drop_eq_getElem_cons hk,
        (by omega : 32768 - k = (32768 - (k + 1)) + 1), List.take_succ_cons,
        List.foldlM_cons]
      simp only [Bool.not_false, if_true, array_get_of_lt trains k hk, include_stage, bind,
        Except.bind]
      cases hg : mp_obj_get_array trains[k] with
      | error e => rfl
      | ok g =>
        simp only []
        cases hr : include_train g r with
        | error e => rfl
        | ok r1 =>
          simp only []
          by_cases hk1 : k + 1 < 32768
          · have hto : to_int16 ((k : Int) + 1) = ((k + 1 : Nat) : Int) := by
              unfold to_int16
              omega
            rw [hto]
            exact ih (k + 1) g r1 (by omega) hk1 (by omega)
          · have hk2 : k = 32767 := by omega
            subst hk2
            obtain ⟨fuel1, rfl⟩ : ∃ fuel1, fuel = fuel1 + 1 := ⟨fuel - 1, by omega⟩
            have hneg : to_int16 (((32767 : Nat) : Int) + 1) < 0 := by decide
            rw [gear_train_loop_neg false trains trains.length fuel1 _ g r1 hneg]
            rfl
    · have hcond : ¬ (0 ≤ (k : Int) ∧ (k : Int).toNat < trains.length) := by
        rw [Int.toNat_ofNat]
        omega
      rw [if_neg hcond, List.drop_eq_nil_of_le (by omega)]
      simp [pure, Except.pure]

/-- The loop over one gear train includes that train and ends. -/
theorem gear_train_loop_one (trains : List mp_obj_t) (r : float_t) :
    gear_train_loop true trains 1 2 0 trains r = include_train trains r := by
  unfold gear_train_loop
  rw [if_pos (by decide)]
  simp only [Bool.not_true, Bool.false_eq_true, if_false]
  cases hr : include_train trains r with
  | error e => simp [bind, Except.bind, pure, Except.pure, hr]
  | ok r1 =>
    simp only [bind, Except.bind, pure, Except.pure, hr]
    unfold gear_train_loop
    rw [if_neg (by decide)]
    rfl

/-- One gear train whose first and last gear are small integers: a tooth count that is
below 1 as an `int16_t` is rejected, otherwise the ratio is included. -/
theorem include_train_ends (gears : List mp_obj_t) (f l : Int) (r : float_t)
    (hf : gears.head? = some (.small_int f)) (hl : gears.getLast? = some (.small_int l)) :
    include_train gears r =
      if to_int16 f < 1 ∨ to_int16 l < 1 then .error (.pb_error PBIO_ERROR_INVALID_ARG)
      else .ok ((r.mul (.of_int (to_int16 l))).div (.of_int (to_int16 f))) := by
  rw [List.head?_eq_getElem?] at hf
  rw [List.getLast?_eq_getElem?] at hl
  unfold include_train array_get
  rw [hf, hl]
  simp only [bind, Except.bind, mp_obj_get_int, pb_assert, pure, Except.pure]
  split_ifs <;> first | rfl | simp_all

/-- The gear argument with a first and a last element that are small integers: the whole
sequence is one gear train. -/
theorem make_new_gear_ratio_one_train (trains : List mp_obj_t)
    (h : ends_are_plain_ints trains = true) :
    make_new_gear_ratio (.seq trains) = include_train trains (float_t.of_int 1) := by
  unfold ends_are_plain_ints at h
  cases hf : trains.head? with
  | none => simp [hf] at h
  | some first =>
    cases hl : trains.getLast? with
    | none => simp [hf, hl] at h
    | some last =>
      simp only [hf, hl, Bool.and_eq_true] at h
      rw [List.head?_eq_getElem?] at hf
      rw [List.getLast?_eq_getElem?] at hl
      unfold make_new_gear_ratio array_get
      simp only [mp_obj_get_array, bind, Except.bind, hf, hl, h.1, h.2, if_true, pure,
        Except.pure]
      exact gear_train_loop_one trains (float_t.of_int 1)

/-- The gear argument with a first element, when the first or the last element is not a
small integer: the outer elements at the indices an `int16_t` counter reaches, which are
the first 32768, are unpacked as stages one after the other. -/
theorem make_new_gear_ratio_trains (trains : List mp_obj_t) (hne : trains ≠ [])
    (h : ends_are_plain_ints trains = false) :
    make_new_gear_ratio (.seq trains) =
      (trains.take 32768).foldlM include_stage (float_t.of_int 1) := by
  have hlen : 0 < trains.length := List.length_pos.mpr hne
  have hloop := gear_train_loop_nested trains (trains.length + 1) 0 [] (float_t.of_int 1)
    (by omega)
    (by omega) (by omega)
  simp only [List.drop_zero, Nat.sub_zero, Nat.cast_zero] at hloop
  unfold ends_are_plain_ints at h
  have hf : trains.head? = some trains[0] := by
    rw [List.head?_eq_getElem?, List.getElem?_eq_getElem hlen]
  have hlast : trains.length - 1 < trains.length := by omega
  have hl : trains.getLast? = some trains[trains.length - 1] := by
    rw [List.getLast?_eq_getElem?, List.getElem?_eq_getElem hlast]
  simp only [hf, hl, Bool.and_eq_false_imp] at h
  unfold make_new_gear_ratio
  simp only [mp_obj_get_array, bind, Except.bind, array_get_of_lt trains 0 hlen,
    array_get_of_lt trains (trains.length - 1) hlast, pure, Except.pure]
  by_cases h0 : MP_OBJ_IS_SMALL_INT trains[0] = true
  · have h1 := h h0
    simp only [h0, h1, if_true, Bool.false_eq_true, if_false]
    exact hloop
  · simp only [h0, Bool.false_eq_true, if_false]
    exact hloop

/-- The arguments of the constructor called with a port, a direction and a gear
argument, the port and the direction being small integers. -/
theorem make_new_arguments_three (n_kw : Nat) (p d : Int) (g : mp_obj_t) (hkw : n_kw = 0) :
    make_new_arguments n_kw [.small_int p, .small_int d, g] =
      (make_new_gear_ratio g).map fun r => (p, to_int8 d, r) := by
  subst hkw
  unfold make_new_arguments mp_arg_check_num array_get
  simp only [List.length_cons, List.length_nil, bind, Except.bind, pure, Except.pure,
    mp_obj_get_int]
  cases h : make_new_gear_ratio g <;> simp [Except.map, h]

/-- The trace of the constructor when the gear argument gives the ratio `r`. -/
theorem motor_Motor_make_new_trace (setup : Int → Int → float_t → pbio_error_t) (p d : Int)
    (g : mp_obj_t) (r : float_t) (h : make_new_gear_ratio g = .ok r) :
    (motor_Motor_make_new setup 0 [.small_int p, .small_int d, g]).trace =
      [.pb_thread_enter, .pbio_motor_setup p (to_int8 d) r, .pb_thread_exit] := by
  unfold motor_Motor_make_new
  rw [make_new_arguments_three 0 p d g rfl, h]
  rfl

/-- The constructor when the gear argument is refused: nothing is passed to pbio. -/
theorem motor_Motor_make_new_error (setup : Int → Int → float_t → pbio_error_t) (p d : Int)
    (g : mp_obj_t) (e : failure) (h : make_new_gear_ratio g = .error e) :
    (motor_Motor_make_new setup 0 [.small_int p, .small_int d, g]).trace = [] ∧
    (motor_Motor_make_new setup 0 [.small_int p, .small_int d, g]).result = .error e := by
  unfold motor_Motor_make_new
  rw [make_new_arguments_three 0 p d g rfl, h]
  exact ⟨rfl, rfl⟩

/-- Stages that leave the ratio `r` as it is, any number of them, leave it as it is. -/
theorem foldlM_include_stage_replicate (stage : mp_obj_t) (r : float_t)
    (h : include_stage r stage = .ok r) :
    ∀ n : Nat, (List.replicate n stage).foldlM include_stage r = .ok r := by
  intro n
  induction n with
  | zero => rfl
  | succ n ih =>
    rw [List.replicate_succ, List.foldlM_cons, h]
    exact ih

/-- The constructor on `n ≥ 32768` stages `[1, 1]` followed by the stage `[1, 2]`: the
product over all stages is 2, the ratio passed to `pbio_motor_setup` is `1.0`. -/
theorem make_new_stages_then_double (n : Nat) (hn : 32768 ≤ n) :
    (stages_then_double n).teeth_in_range ∧
    (stages_then_double n).ratio = 2 ∧
    (motor_Motor_make_new setup_ok 0
      [.small_int 65, .small_int 0, (stages_then_double n).to_obj]).result = .ok ⟨65⟩ ∧
    (motor_Motor_make_new setup_ok 0
      [.small_int 65, .small_int 0, (stages_then_double n).to_obj]).trace =
      [.pb_thread_enter, .pbio_motor_setup 65 0 (float_t.of_int 1), .pb_thread_exit] := by
  have hobj : (stages_then_double n).to_obj =
      .seq (List.replicate n (.seq [.small_int 1, .small_int 1]) ++
        [.seq [.small_int 1, .small_int 2]]) := by
    simp [stages_then_double, GearTrainSpec.to_obj, List.map_append, List.map_replicate]
  have hstage : include_stage (float_t.of_int 1) (.seq [.small_int 1, .small_int 1]) =
      .ok (float_t.of_int 1) := by decide
  have hends : ends_are_plain_ints
      (List.replicate n (mp_obj_t.seq [.small_int 1, .small_int 1]) ++
        [.seq [.small_int 1, .small_int 2]]) = false := by
    unfold ends_are_plain_ints
    rw [List.getLast?_concat]
    cases n with
    | zero => rfl
    | succ m => rfl
  have htake : List.take 32768
      (List.replicate n (mp_obj_t.seq [.small_int 1, .small_int 1]) ++
        [.seq [.small_int 1, .small_int 2]]) =
      List.replicate 32768 (mp_obj_t.seq [.small_int 1, .small_int 1]) := by
    rw [List.take_append_of_le_length (by rw [List.length_replicate]; exact hn),
      List.take_replicate, Nat.min_eq_left hn]
  have hratio : make_new_gear_ratio (stages_then_double n).to_obj =
      .ok (float_t.of_int 1) := by
    rw [hobj, make_new_gear_ratio_trains _ (List.append_ne_nil_of_right_ne_nil _
      (List.cons_ne_nil _ _)) hends, htake]
    exact foldlM_include_stage_replicate _ _ hstage 32768
  refine ⟨?_, ?_, ?_, motor_Motor_make_new_trace setup_ok 65 0 _ _ hratio⟩
  · intro teeth hmem
    simp only [stages_then_double, GearTrainSpec.stages, List.mem_append, List.mem_replicate,
      List.mem_singleton] at hmem
    rcases hmem with ⟨-, rfl⟩ | rfl
    · exact ⟨1, 1, rfl, rfl, by decide, by decide, by decide, by decide⟩
    · exact ⟨1, 2, rfl, rfl, by decide, by decide, by decide, by decide⟩
  · simp [stages_then_double, GearTrainSpec.ratio, GearTrainSpec.stages, List.map_append,
      List.map_replicate, List.prod_append, List.prod_replicate, stage_ratio]
  · unfold motor_Motor_make_new
    rw [make_new_arguments_three 0 65 0 _ rfl, hratio]
    rfl

theorem array_get_fuel (items : List mp_obj_t) (i : Nat) :
    array_get items i ≠ .error .out_of_fuel := by
  unfold array_get
  split <;> simp

theorem mp_obj_get_int_fuel (o : mp_obj_t) : mp_obj_get_int o ≠ .error .out_of_fuel := by
  cases o with
  | small_int n => simp [mp_obj_get_int]
  | seq items => simp [mp_obj_get_int]
  | obj v => cases v <;> simp [mp_obj_get_int]

theorem mp_obj_get_array_fuel (o : mp_obj_t) : mp_obj_get_array o ≠ .error .out_of_fuel := by
  cases o <;> simp [mp_obj_get_array]

theorem include_train_fuel (gears : List mp_obj_t) (r : float_t) :
    include_train gears r ≠ .error .out_of_fuel := by
  unfold include_train
  simp only [bind, Except.bind, pure, Except.pure]
  cases h1 : array_get gears 0 with
  | error e =>
    intro h
    injection h with h
    exact array_get_fuel _ _ (h ▸ h1)
  | ok a =>
    simp only []
    cases h2 : mp_obj_get_int a with
    | error e =>
      intro h
      injection h with h
      exact mp_obj_get_int_fuel _ (h ▸ h2)
    | ok f =>
      simp only []
      cases h3 : array_get gears (gears.length - 1) with
      | error e =>
        intro h
        injection h with h
        exact array_get_fuel _ _ (h ▸ h3)
      | ok b =>
        simp only []
        cases h4 : mp_obj_get_int b with
        | error e =>
          intro h
          injection h with h
          exact mp_obj_get_int_fuel _ (h ▸ h4)
        | ok l =>
          simp only []
          split_ifs <;> simp [pb_assert]

theorem include_stage_fuel (r : float_t) (stage : mp_obj_t) :
    include_stage r stage ≠ .error .out_of_fuel := by
  unfold include_stage
  simp only [bind, Except.bind]
  cases h1 : mp_obj_get_array stage with
  | error e =>
    intro h
    injection h with h
    exact mp_obj_get_array_fuel _ (h ▸ h1)
  | ok gears => exact include_train_fuel gears r

theorem foldlM_include_stage_fuel (stages : List mp_obj_t) :
    ∀ r : float_t, stages.foldlM include_stage r ≠ .error .out_of_fuel := by
  induction stages with
  | nil => intro r; simp [pure, Except.pure]
  | cons stage stages ih =>
    intro r
    rw [List.foldlM_cons]
    cases h1 : include_stage r stage with
    | error e =>
      intro h
      injection h with h
      exact include_stage_fuel _ _ (h ▸ h1)
    | ok r1 => exact ih r1

/-- The iteration bound that `make_new_gear_ratio` gives the loop over the gear trains is
never exhausted: the gear argument is worked out to a ratio, an exception or a read
outside an array. -/
theorem make_new_gear_ratio_fuel (arg : mp_obj_t) :
    make_new_gear_ratio arg ≠ .error .out_of_fuel := by
  cases arg with
  | small_int n => simp [make_new_gear_ratio, mp_obj_get_array, bind, Except.bind]
  | obj v => simp [make_new_gear_ratio, mp_obj_get_array, bind, Except.bind]
  | seq trains =>
    by_cases hne : trains = []
    · subst hne
      simp [make_new_gear_ratio, mp_obj_get_array, array_get, bind, Except.bind]
    · cases hends : ends_are_plain_ints trains with
      | true =>
        rw [make_new_gear_ratio_one_train trains hends]
        exact include_train_fuel trains _
      | false =>
        rw [make_new_gear_ratio_trains trains hne hends]
        exact foldlM_include_stage_fuel _ _

/-! ## Properties of the logger -/

/-- C1: after `pbio_logger_start(log, buf, L, d)` with `d ≥ 1` on any prior log, followed by
`n` calls of `pbio_logger_update` (with any values and clock readings),
`pbio_logger_rows` is `min (n / d) L`: every `d`-th update adds a row until `L` rows are
written. -/
theorem logger_rows_after_updates (log : pbio_log_t) (buf : Nat → Int) (L : Nat) (d : Int)
    (now : Int) (calls : List update_call) (hd : 1 ≤ d) :
    pbio_logger_rows (run_updates (pbio_logger_start log buf L d now) calls) =
      min ((calls.length : Int) / d) (L : Int) := by
  obtain ⟨d', rfl⟩ : ∃ d' : Nat, d = (d' : Int) := ⟨d.toNat, by omega⟩
  have hd' : 1 ≤ d' := by omega
  unfold pbio_logger_rows
  rw [run_updates_start_sampled log buf L d' now hd' calls]
  push_cast
  rfl

/-- C1 at the specification's example: capacity 3, divisor 2; the rows after one to seven
updates are 0, 1, 1, 2, 2, 3, 3 (the 2nd, 4th and 6th update sample) and four updates give
two rows. -/
theorem logger_rows_after_updates_witness :
    (1 : Int) ≤ 2 ∧
    pbio_logger_rows (run_updates (pbio_logger_start log0 (fun _ => 0) 3 2 100)
      [⟨values_from 10, 101⟩, ⟨values_from 20, 102⟩, ⟨values_from 30, 103⟩,
        ⟨values_from 40, 104⟩]) = min (((4 : Nat) : Int) / 2) ((3 : Nat) : Int) ∧
    (List.range 8).map (fun n => pbio_logger_rows (run_updates
      (pbio_logger_start log0 (fun _ => 0) 3 2 100)
      (List.replicate n ⟨values_from 10, 101⟩))) = [0, 0, 1, 1, 2, 2, 3, 3] :=
  ⟨by decide,
    logger_rows_after_updates log0 (fun _ => 0) 3 2 100
      [⟨values_from 10, 101⟩, ⟨values_from 20, 102⟩, ⟨values_from 30, 103⟩,
        ⟨values_from 40, 104⟩] (by decide),
    by decide⟩

/-- C2: buffer layout.  When `pbio_logger_update` samples (the session is active, the
incremented skip counter equals `sample_div`, and `sampled = s < len`) at clock value `t`
with caller values `v`, cell `s * num_values` becomes `t - start` as the C expression
computes it, the difference of the 32-bit clock values as an `int32_t`; that is the
number `E` of elapsed milliseconds whenever `E < 2^31` and the clock reads `start + E`
modulo `2^32` (so also when the 32-bit clock wrapped around since the start).  Cell
`s * num_values + i` becomes `v[i - 1]` for every `1 ≤ i < num_values`, every other cell
keeps its content, and `sampled` becomes `s + 1`. -/
theorem logger_update_row_layout (log : pbio_log_t) (v : Nat → Int) (t : Int) (s : Nat)
    (hact : log.active = true)
    (hskip : ((log.skipped + 1 : Nat) : Int) = log.sample_div)
    (hs : log.sampled = s) (hlt : s < log.len) :
    (pbio_logger_update log v t).data (s * log.num_values.val) = to_int32 (t - log.start) ∧
    (∀ E : Int, 0 ≤ E → E < 2147483648 → (t - log.start - E) % 4294967296 = 0 →
      (pbio_logger_update log v t).data (s * log.num_values.val) = E) ∧
    (∀ i, 1 ≤ i → i < log.num_values.val →
      (pbio_logger_update log v t).data (s * log.num_values.val + i) = v (i - 1)) ∧
    (∀ j, j ≠ s * log.num_values.val →
      (∀ i, 1 ≤ i → i < log.num_values.val → j ≠ s * log.num_values.val + i) →
      (pbio_logger_update log v t).data j = log.data j) ∧
    (pbio_logger_update log v t).sampled = s + 1 := by
  subst hs
  exact ⟨(pbio_logger_update_sample_row log v t hact hskip hlt).1,
    fun E h0 h1 hE => by
      rw [(pbio_logger_update_sample_row log v t hact hskip hlt).1]
      exact to_int32_elapsed t log.start E h0 h1 hE,
    (pbio_logger_update_sample_row log v t hact hskip hlt).2.1,
    (pbio_logger_update_sample_row log v t hact hskip hlt).2.2,
    (pbio_logger_update_sample_fields log v t hact hskip hlt).1⟩

/-- C2 on a session with one row in place, started at clock 100: the update at clock 104
with values 40, 41, … writes row 1 as `[4, 40, 41]` in cells 3, 4, 5 and leaves row 0 and
the cells behind row 1 as they were.  An update at clock 8, reached after the 32-bit clock
wrapped around, writes the elapsed time `2^32 - 92`, which the `int32_t` cell holds as
`-92`; an update at clock 3000000100 writes `-1294967296`. -/
theorem logger_update_row_layout_witness :
    (List.range 8).map (pbio_logger_update log_one_row (values_from 40) 104).data =
      [7, 7, 7, 4, 40, 41, 0, 0] ∧
    (List.range 8).map (pbio_logger_update log_one_row (values_from 40) 8).data =
      [7, 7, 7, -92, 40, 41, 0, 0] ∧
    (List.range 8).map (pbio_logger_update log_one_row (values_from 40) 3000000100).data =
      [7, 7, 7, -1294967296, 40, 41, 0, 0] ∧
    ((pbio_logger_update log_one_row (values_from 40) 104).data
        (1 * log_one_row.num_values.val) = to_int32 (104 - log_one_row.start) ∧
      (∀ E : Int, 0 ≤ E → E < 2147483648 →
        (104 - log_one_row.start - E) % 4294967296 = 0 →
        (pbio_logger_update log_one_row (values_from 40) 104).data
          (1 * log_one_row.num_values.val) = E) ∧
      (∀ i, 1 ≤ i → i < log_one_row.num_values.val →
        (pbio_logger_update log_one_row (values_from 40) 104).data
          (1 * log_one_row.num_values.val + i) = values_from 40 (i - 1)) ∧
      (∀ j, j ≠ 1 * log_one_row.num_values.val →
        (∀ i, 1 ≤ i → i < log_one_row.num_values.val →
          j ≠ 1 * log_one_row.num_values.val + i) →
        (pbio_logger_update log_one_row (values_from 40) 104).data j = log_one_row.data j) ∧
      (pbio_logger_update log_one_row (values_from 40) 104).sampled = 1 + 1) :=
  ⟨by decide, by decide, by decide,
    logger_update_row_layout log_one_row (values_from 40) 104 1 rfl (by decide) rfl
      (by decide)⟩

/-- C3: read round trip.  Let an update sample row `k` (the session is active, the
incremented skip counter equals `sample_div`, `sampled = k < len`) at clock value `t` with
values `v`, and let any sequence of later calls that does not restart the session follow
(updates, stops, reads, `rows`, `cols`).  Then `pbio_logger_read` of index `k` (an
`int32_t`, so `k < 2^31`) succeeds and the caller's buffer holds the elapsed time that the
update stored, `t - start` as a difference of 32-bit clock values in an `int32_t` (the
number `E` of elapsed milliseconds whenever `E < 2^31` and the clock reads `start + E`
modulo `2^32`), followed by `v[0], …, v[num_values - 2]`, its cells from `num_values` on
being untouched; and reading index `-1` gives the same result as reading index
`rows() - 1`. -/
theorem logger_read_round_trip (log : pbio_log_t) (v : Nat → Int) (t : Int)
    (ops : List logger_op) (out : Nat → Int) (k : Nat)
    (hact : log.active = true)
    (hskip : ((log.skipped + 1 : Nat) : Int) = log.sample_div)
    (hk : log.sampled = k) (hlt : k < log.len) (hk31 : k < 2147483648)
    (hops : ∀ op ∈ ops, op.restarts = false) :
    (pbio_logger_read (run_ops (pbio_logger_update log v t) ops) (k : Int) out).err =
      PBIO_SUCCESS ∧
    (0 < log.num_values.val →
      (pbio_logger_read (run_ops (pbio_logger_update log v t) ops) (k : Int) out).buf 0 =
        to_int32 (t - log.start)) ∧
    (0 < log.num_values.val →
      ∀ E : Int, 0 ≤ E → E < 2147483648 → (t - log.start - E) % 4294967296 = 0 →
      (pbio_logger_read (run_ops (pbio_logger_update log v t) ops) (k : Int) out).buf 0 =
        E) ∧
    (∀ i, 1 ≤ i → i < log.num_values.val →
      (pbio_logger_read (run_ops (pbio_logger_update log v t) ops) (k : Int) out).buf i =
        v (i - 1)) ∧
    (∀ i, log.num_values.val ≤ i →
      (pbio_logger_read (run_ops (pbio_logger_update log v t) ops) (k : Int) out).buf i =
        out i) ∧
    pbio_logger_read (run_ops (pbio_logger_update log v t) ops) (-1) out =
      pbio_logger_read (run_ops (pbio_logger_update log v t) ops)
        (pbio_logger_rows (run_ops (pbio_logger_update log v t) ops) - 1) out := by
  subst hk
  obtain ⟨hs, -, -, -, -, -, hn⟩ := pbio_logger_update_sample_fields log v t hact hskip hlt
  obtain ⟨hn2, hs2, hd2, -⟩ := run_ops_keeps_rows ops (pbio_logger_update log v t) hops
  generalize run_ops (pbio_logger_update log v t) ops = after at hn2 hs2 hd2
  rw [hn] at hn2
  rw [hs] at hs2
  rw [hs, hn] at hd2
  obtain ⟨herr, hbuf, -⟩ :=
    pbio_logger_read_row after log.sampled out (by omega) (by omega)
  have hcell : ∀ i, i < log.num_values.val →
      after.data (log.sampled * log.num_values.val + i) =
        (pbio_logger_update log v t).data (log.sampled * log.num_values.val + i) := by
    intro i hi
    apply hd2
    rw [Nat.add_mul]
    omega
  have hlay := pbio_logger_update_sample_row log v t hact hskip hlt
  refine ⟨herr, ?_, ?_, ?_, ?_, ?_⟩
  · intro h0
    rw [hbuf 0, hn2, if_pos h0, hcell 0 h0]
    exact hlay.1
  · intro h0 E hE0 hE1 hE
    rw [hbuf 0, hn2, if_pos h0, hcell 0 h0]
    exact hlay.1.trans (to_int32_elapsed t log.start E hE0 hE1 hE)
  · intro i hi1 hi2
    rw [hbuf i, hn2, if_pos hi2, hcell i hi2]
    exact hlay.2.1 i hi1 hi2
  · intro i hi
    rw [hbuf i, hn2, if_neg (by omega)]
  · have hneg : ¬ (((after.sampled : Int) - 1) < -1) := by omega
    have hneg0 : ¬ (((after.sampled : Int) - 1) < 0) := by omega
    unfold pbio_logger_read pbio_logger_rows
    simp only [hneg, hneg0, if_false]
    simp

/-- C3 on a session with one row in place: the update at clock 104 writes row 1, a further
sampling update, a stop and one more update follow, and reading index 1 still returns
`[4, 40, 41]`; the latest row, read with index `-1`, is row 2. -/
theorem logger_read_round_trip_witness :
    (List.range 4).map (pbio_logger_read (run_ops
      (pbio_logger_update log_one_row (values_from 40) 104)
      [.update (values_from 50) 105, .update (values_from 60) 106, .stop,
        .update (values_from 70) 107]) 1 (fun _ => 9)).buf = [4, 40, 41, 9] ∧
    (List.range 4).map (pbio_logger_read (run_ops
      (pbio_logger_update log_one_row (values_from 40) 104)
      [.update (values_from 50) 105, .update (values_from 60) 106, .stop,
        .update (values_from 70) 107]) (-1) (fun _ => 9)).buf = [6, 60, 61, 9] ∧
    (pbio_logger_read (run_ops (pbio_logger_update log_one_row (values_from 40) 104)
      [.update (values_from 50) 105, .update (values_from 60) 106, .stop,
        .update (values_from 70) 107]) ((1 : Nat) : Int) (fun _ => 9)).err = PBIO_SUCCESS :=
  ⟨by decide, by decide,
    (logger_read_round_trip log_one_row (values_from 40) 104
      [.update (values_from 50) 105, .update (values_from 60) 106, .stop,
        .update (values_from 70) 107] (fun _ => 9) 1 rfl (by decide) rfl (by decide)
      (by decide) (by decide)).1⟩

/-- C4: for an index `sindex` in the range of `int32_t`, `pbio_logger_read` returns
`PBIO_ERROR_INVALID_ARG` exactly when `sindex < -1`, or `sindex ≥ sampled`, or
`sindex = -1` while no row has been sampled; for every other index it returns
`PBIO_SUCCESS`; and whenever it fails, the caller's buffer and the log are unchanged. -/
theorem logger_read_errors (log : pbio_log_t) (sindex : Int) (out : Nat → Int)
    (hmax : sindex < 2147483648) :
    ((pbio_logger_read log sindex out).err = PBIO_ERROR_INVALID_ARG ↔
      (sindex < -1 ∨ (log.sampled : Int) ≤ sindex ∨ (sindex = -1 ∧ log.sampled = 0))) ∧
    (¬ (sindex < -1 ∨ (log.sampled : Int) ≤ sindex ∨ (sindex = -1 ∧ log.sampled = 0)) →
      (pbio_logger_read log sindex out).err = PBIO_SUCCESS) ∧
    ((pbio_logger_read log sindex out).err = PBIO_ERROR_INVALID_ARG →
      (pbio_logger_read log sindex out).buf = out ∧
      (pbio_logger_read log sindex out).log = log) := by
  unfold pbio_logger_read to_uint32
  by_cases h1 : sindex < -1
  · simp only [h1, if_true, true_or, true_iff, not_true_eq_false, false_implies, and_self,
      implies_true]
  · rw [if_neg h1]
    by_cases h2 : sindex < 0
    · have hm1 : sindex = -1 := by omega
      subst hm1
      by_cases h3 : ((((log.sampled : Int) - 1) % 4294967296).toNat ≥ log.sampled)
      · have h0 : log.sampled = 0 := by omega
        simp [h3, h0]
      · have h0 : ¬ log.sampled = 0 := by omega
        have h4 : (-1 : Int) < (log.sampled : Int) := by omega
        simp [h3, h0, h4]
    · by_cases h3 : ((sindex % 4294967296).toNat ≥ log.sampled)
      · have h4 : (log.sampled : Int) ≤ sindex := by omega
        simp [h2, h3, h4]
      · have h4 : ¬ (log.sampled : Int) ≤ sindex := by omega
        have h5 : ¬ sindex = -1 := by omega
        simp [h1, h2, h3, h4, h5]

/-- C4 on a session with two rows: reading index `-2` and index `rows()` fails and leaves
the caller's buffer as it was, reading `-1`, `0` and `1` succeeds, and on a log without
rows reading `-1` fails. -/
theorem logger_read_errors_witness :
    (pbio_logger_read log_two_rows (-2) (fun _ => 9)).err = PBIO_ERROR_INVALID_ARG ∧
    (pbio_logger_read log_two_rows (pbio_logger_rows log_two_rows) (fun _ => 9)).err =
      PBIO_ERROR_INVALID_ARG ∧
    [-1, 0, 1].map (fun i => (pbio_logger_read log_two_rows i (fun _ => 9)).err) =
      [PBIO_SUCCESS, PBIO_SUCCESS, PBIO_SUCCESS] ∧
    (pbio_logger_read log0 (-1) (fun _ => 9)).err = PBIO_ERROR_INVALID_ARG ∧
    ((pbio_logger_read log_two_rows 2 (fun _ => 9)).err = PBIO_ERROR_INVALID_ARG →
      (pbio_logger_read log_two_rows 2 (fun _ => 9)).buf = (fun _ => 9) ∧
      (pbio_logger_read log_two_rows 2 (fun _ => 9)).log = log_two_rows) :=
  ⟨by decide, by decide, by decide, by decide,
    (logger_read_errors log_two_rows 2 (fun _ => 9) (by decide)).2.2⟩

/-- C5: capacity invariant.  In every log reached from a `pbio_logger_start` call by any
sequence of `pbio_logger_update`, `pbio_logger_stop`, `pbio_logger_read`,
`pbio_logger_rows`, `pbio_logger_cols` (and further `pbio_logger_start`) calls,
`sampled ≤ len` holds and `num_values` is what it was before the start; and no single
logger call, on any log, changes `num_values`. -/
theorem logger_capacity_invariant (log : pbio_log_t) (buf : Nat → Int) (L : Nat) (d : Int)
    (now : Int) (ops : List logger_op) :
    (run_ops (pbio_logger_start log buf L d now) ops).sampled ≤
      (run_ops (pbio_logger_start log buf L d now) ops).len ∧
    (run_ops (pbio_logger_start log buf L d now) ops).num_values = log.num_values ∧
    (∀ (l : pbio_log_t) (op : logger_op), (logger_op.apply l op).num_values = l.num_values) :=
  ⟨(run_ops_capacity ops (pbio_logger_start log buf L d now) (Nat.zero_le _)).1,
    (run_ops_capacity ops (pbio_logger_start log buf L d now) (Nat.zero_le _)).2,
    logger_op_apply_num_values⟩

/-- C6: full log.  On a log with `sampled = len` (or `sampled > len`), an update of an
active session whose incremented skip counter equals `sample_div` sets `active` to false
and changes neither `sampled` nor any buffer cell; and no sequence of updates, whatever
the state of the session, writes a buffer cell or changes `pbio_logger_rows`. -/
theorem logger_full_log (log : pbio_log_t) (v : Nat → Int) (t : Int)
    (calls : List update_call) (hfull : log.len ≤ log.sampled) :
    (log.active = true → ((log.skipped + 1 : Nat) : Int) = log.sample_div →
      (pbio_logger_update log v t).active = false ∧
      (pbio_logger_update log v t).sampled = log.sampled ∧
      (pbio_logger_update log v t).data = log.data) ∧
    (run_updates log calls).data = log.data ∧
    pbio_logger_rows (run_updates log calls) = pbio_logger_rows log := by
  refine ⟨?_, (run_updates_full calls log hfull).1, ?_⟩
  · intro hact hskip
    refine ⟨?_, (pbio_logger_update_full log v t hfull).2.1,
      (pbio_logger_update_full log v t hfull).1⟩
    unfold pbio_logger_update
    rw [if_neg (by simp [hact]), if_neg (by simp [hskip])]
    split_ifs with h3 h4
    · rfl
    · rfl
    · omega
  · unfold pbio_logger_rows
    rw [(run_updates_full calls log hfull).2]

/-- C6 on the specification's example (capacity 3, divisor 2): after six updates the log
holds three rows and is still active; the eighth update deactivates it, and the rows and
the buffer cells are the same after twelve updates as after six. -/
theorem logger_full_log_witness :
    (run_updates (pbio_logger_start log0 (fun _ => 0) 3 2 100)
      (List.replicate 6 ⟨values_from 10, 101⟩)).active = true ∧
    (List.range 8).map (fun n => (run_updates (pbio_logger_start log0 (fun _ => 0) 3 2 100)
      (List.replicate n ⟨values_from 10, 101⟩)).active) =
      [true, true, true, true, true, true, true, true] ∧
    (run_updates (pbio_logger_start log0 (fun _ => 0) 3 2 100)
      (List.replicate 8 ⟨values_from 10, 101⟩)).active = false ∧
    (run_updates (run_updates (pbio_logger_start log0 (fun _ => 0) 3 2 100)
        (List.replicate 6 ⟨values_from 10, 101⟩))
      (List.replicate 6 ⟨values_from 50, 105⟩)).data =
      (run_updates (pbio_logger_start log0 (fun _ => 0) 3 2 100)
        (List.replicate 6 ⟨values_from 10, 101⟩)).data :=
  ⟨by decide, by decide, by decide,
    (logger_full_log
      (run_updates (pbio_logger_start log0 (fun _ => 0) 3 2 100)
        (List.replicate 6 ⟨values_from 10, 101⟩))
      (values_from 50) 105 (List.replicate 6 ⟨values_from 50, 105⟩) (by decide)).2.1⟩

/-- C7: `pbio_logger_stop` sets `active` to false and changes nothing else: `sampled`,
`skipped`, `len`, `sample_div`, `start`, the column count and every buffer cell are kept,
so `pbio_logger_rows` and, for every index and caller buffer, the error code and the
data returned by `pbio_logger_read` are the same after the stop as before it; a second
stop changes nothing. -/
theorem logger_stop_frame (log : pbio_log_t) (sindex : Int) (out : Nat → Int) :
    (pbio_logger_stop log).active = false ∧
    (pbio_logger_stop log).sampled = log.sampled ∧
    (pbio_logger_stop log).skipped = log.skipped ∧
    (pbio_logger_stop log).len = log.len ∧
    (pbio_logger_stop log).sample_div = log.sample_div ∧
    (pbio_logger_stop log).start = log.start ∧
    (pbio_logger_stop log).num_values = log.num_values ∧
    (pbio_logger_stop log).data = log.data ∧
    pbio_logger_rows (pbio_logger_stop log) = pbio_logger_rows log ∧
    (pbio_logger_read (pbio_logger_stop log) sindex out).err =
      (pbio_logger_read log sindex out).err ∧
    (pbio_logger_read (pbio_logger_stop log) sindex out).buf =
      (pbio_logger_read log sindex out).buf ∧
    pbio_logger_stop (pbio_logger_stop log) = pbio_logger_stop log := by
  refine ⟨rfl, rfl, rfl, rfl, rfl, rfl, rfl, rfl, rfl, ?_, ?_, rfl⟩
  · unfold pbio_logger_read pbio_logger_stop
    by_cases h1 : sindex < -1
    · simp only [h1, if_true]
    · simp only [h1, if_false]
      split_ifs <;> rfl
  · unfold pbio_logger_read pbio_logger_stop
    by_cases h1 : sindex < -1
    · simp only [h1, if_true]
    · simp only [h1, if_false]
      split_ifs <;> rfl

/-! ## Properties of the motor constructor -/

theorem float_t_of_int_one : float_t.of_int 1 = .finite false 8388608 (-23) := by decide

theorem float_t_of_int_two : float_t.of_int 2 = .finite false 8388608 (-22) := by decide

theorem float_t_of_int_36 : float_t.of_int 36 = .finite false 9437184 (-18) := by decide

theorem float_t_to_rat_one : (float_t.of_int 1).to_rat = some 1 := by
  rw [float_t_of_int_one]
  simp only [float_t.to_rat]
  norm_num

theorem float_t_to_rat_two : (float_t.of_int 2).to_rat = some 2 := by
  rw [float_t_of_int_two]
  simp only [float_t.to_rat]
  norm_num

theorem float_t_to_rat_36 : (float_t.of_int 36).to_rat = some 36 := by
  rw [float_t_of_int_36]
  simp only [float_t.to_rat]
  norm_num

/-- A gear argument whose first and last element are the small integers `f` and `l` is
treated as one stage: the constructor does on it what it does on the two-element sequence
`[f, l]`, whatever the number, values and shape of the elements in between.  It fails with
`PBIO_ERROR_INVALID_ARG` when `f` or `l` is below 1 as an `int16_t`, and otherwise passes
the quotient of `l` by `f`, both as `int16_t`, rounded to `float_t`. -/
theorem make_new_one_train (setup : Int → Int → float_t → pbio_error_t) (p d : Int)
    (trains : List mp_obj_t) (f l : Int) (hf : trains.head? = some (.small_int f))
    (hl : trains.getLast? = some (.small_int l)) :
    motor_Motor_make_new setup 0 [.small_int p, .small_int d, .seq trains] =
      motor_Motor_make_new setup 0
        [.small_int p, .small_int d, .seq [.small_int f, .small_int l]] ∧
    ((to_int16 f < 1 ∨ to_int16 l < 1) →
      (motor_Motor_make_new setup 0 [.small_int p, .small_int d, .seq trains]).result =
        .error (.pb_error PBIO_ERROR_INVALID_ARG) ∧
      (motor_Motor_make_new setup 0 [.small_int p, .small_int d, .seq trains]).trace =
        []) ∧
    (¬ (to_int16 f < 1 ∨ to_int16 l < 1) →
      (motor_Motor_make_new setup 0 [.small_int p, .small_int d, .seq trains]).trace =
        [.pb_thread_enter,
          .pbio_motor_setup p (to_int8 d)
            (((float_t.of_int 1).mul (.of_int (to_int16 l))).div (.of_int (to_int16 f))),
          .pb_thread_exit]) := by
  have hends : ends_are_plain_ints trains = true := by
    unfold ends_are_plain_ints
    rw [hf, hl]
    rfl
  have hone := make_new_gear_ratio_one_train trains hends
  rw [include_train_ends trains f l _ hf hl] at hone
  have htwo := make_new_gear_ratio_one_train [.small_int f, .small_int l] rfl
  rw [include_train_ends [.small_int f, .small_int l] f l _ rfl rfl] at htwo
  refine ⟨?_, ?_, ?_⟩
  · unfold motor_Motor_make_new
    rw [make_new_arguments_three 0 p d _ rfl, make_new_arguments_three 0 p d _ rfl, hone,
      htwo]
  · intro hlow
    rw [if_pos hlow] at hone
    obtain ⟨htrace, hres⟩ := motor_Motor_make_new_error setup p d _ _ hone
    exact ⟨hres, htrace⟩
  · intro hok
    rw [if_neg hok] at hone
    exact motor_Motor_make_new_trace setup p d _ _ hone

/-- C8, evaluated at a gear argument of 32769 stages: the constructor is given 32768
stages `[1, 1]` followed by the stage `[1, 2]`, every tooth count being within
`1..32767`.  The argument is accepted and the product of `last / first` over all stages
is 2, yet the gear ratio passed to `pbio_motor_setup` is `1.0`, the number 1: the
`int16_t` loop counter wraps to a negative value after the stage at index 32767, and the
last stage is never read. -/
theorem make_new_ratio_many_stages :
    many_stages.teeth_in_range ∧
    many_stages.ratio = 2 ∧
    (motor_Motor_make_new setup_ok 0
      [.small_int 65, .small_int 0, many_stages.to_obj]).result = .ok ⟨65⟩ ∧
    (motor_Motor_make_new setup_ok 0
      [.small_int 65, .small_int 0, many_stages.to_obj]).trace =
      [.pb_thread_enter, .pbio_motor_setup 65 0 (float_t.of_int 1), .pb_thread_exit] ∧
    (float_t.of_int 1).to_rat = some 1 :=
  ⟨(make_new_stages_then_double 32768 (Nat.le_refl _)).1,
    (make_new_stages_then_double 32768 (Nat.le_refl _)).2.1,
    (make_new_stages_then_double 32768 (Nat.le_refl _)).2.2.1,
    (make_new_stages_then_double 32768 (Nat.le_refl _)).2.2.2, float_t_to_rat_one⟩

/-- C9, evaluated at the gear argument `[-65535, 20, 36]`: the first tooth count is below
1, yet the constructor does not fail: narrowed to `int16_t` the count is 1, the check
passes, and `pbio_motor_setup` is called with the gear ratio `36.0`, the number 36. -/
theorem make_new_accepts_negative_tooth_count :
    (motor_Motor_make_new setup_ok 0
      [.small_int 65, .small_int 0, (GearTrainSpec.flat [-65535, 20, 36]).to_obj]).result =
      .ok ⟨65⟩ ∧
    (motor_Motor_make_new setup_ok 0
      [.small_int 65, .small_int 0, (GearTrainSpec.flat [-65535, 20, 36]).to_obj]).trace =
      [.pb_thread_enter, .pbio_motor_setup 65 0 (float_t.of_int 36), .pb_thread_exit] ∧
    calls_setup (motor_Motor_make_new setup_ok 0
      [.small_int 65, .small_int 0, (GearTrainSpec.flat [-65535, 20, 36]).to_obj]).trace =
      true ∧
    (float_t.of_int 36).to_rat = some 36 := by
  have hratio : make_new_gear_ratio (GearTrainSpec.flat [-65535, 20, 36]).to_obj =
      .ok (float_t.of_int 36) := by decide
  have htrace := motor_Motor_make_new_trace setup_ok 65 0 _ _ hratio
  refine ⟨?_, htrace, ?_, float_t_to_rat_36⟩
  · unfold motor_Motor_make_new
    rw [make_new_arguments_three 0 65 0 _ rfl, hratio]
    rfl
  · rw [htrace]
    rfl

/-- C10, evaluated at gear arguments whose first and last element are plain positive
integers.  For `[65537, 2]` the whole sequence is one stage and `last / first` is
`2 / 65537`, yet the gear ratio passed to `pbio_motor_setup` is `2.0`, the number 2, which
is not the quotient of 2 by 65537 as a `float_t` either: narrowed to `int16_t` the first
tooth count is 1.  For `[12, 20, 32768]` the whole sequence is one stage and
`last / first` is `32768 / 12`, yet the constructor fails with `PBIO_ERROR_INVALID_ARG`
and passes nothing to `pbio_motor_setup`: narrowed to `int16_t` the last tooth count is
`-32768`. -/
theorem make_new_one_train_narrowed :
    ends_are_plain_ints [.small_int 65537, .small_int 2] = true ∧
    (motor_Motor_make_new setup_ok 0
      [.small_int 65, .small_int 0, .seq [.small_int 65537, .small_int 2]]).trace =
      [.pb_thread_enter, .pbio_motor_setup 65 0 (float_t.of_int 2), .pb_thread_exit] ∧
    (float_t.of_int 2).to_rat = some 2 ∧
    (float_t.of_int 2).div (float_t.of_int 65537) ≠ float_t.of_int 2 ∧
    ends_are_plain_ints [.small_int 12, .small_int 20, .small_int 32768] = true ∧
    (motor_Motor_make_new setup_ok 0
      [.small_int 65, .small_int 0,
        .seq [.small_int 12, .small_int 20, .small_int 32768]]).result =
      .error (.pb_error PBIO_ERROR_INVALID_ARG) ∧
    calls_setup (motor_Motor_make_new setup_ok 0
      [.small_int 65, .small_int 0,
        .seq [.small_int 12, .small_int 20, .small_int 32768]]).trace = false := by
  have hratio : make_new_gear_ratio (.seq [.small_int 65537, .small_int 2]) =
      .ok (float_t.of_int 2) := by decide
  have hrej : make_new_gear_ratio (.seq [.small_int 12, .small_int 20, .small_int 32768]) =
      .error (.pb_error PBIO_ERROR_INVALID_ARG) := by decide
  obtain ⟨htrace, hres⟩ := motor_Motor_make_new_error setup_ok 65 0 _ _ hrej
  refine ⟨by decide, motor_Motor_make_new_trace setup_ok 65 0 _ _ hratio, float_t_to_rat_two,
    by decide, by decide, hres, ?_⟩
  rw [htrace]
  rfl

/-! ## Further properties of the logger -/

theorem pbio_logger_update_inactive (log : pbio_log_t) (v : Nat → Int) (t : Int)
    (h : log.active = false) : pbio_logger_update log v t = log := by
  unfold pbio_logger_update
  simp [h]

/-- C17: after `pbio_logger_start(log, buf, L, d)` with `d ≥ 1` followed by `n` update
calls and no stop, the session is active if and only if `n < (L + 1) * d`: it is
deactivated at the first sampling tick on which `sampled = len`. -/
theorem logger_active_after_updates (log : pbio_log_t) (buf : Nat → Int) (L : Nat) (d : Int)
    (now : Int) (calls : List update_call) (hd : 1 ≤ d) :
    (run_updates (pbio_logger_start log buf L d now) calls).active = true ↔
      (calls.length : Int) < ((L : Int) + 1) * d := by
  obtain ⟨d', rfl⟩ : ∃ d' : Nat, d = (d' : Int) := ⟨d.toNat, by omega⟩
  have hd' : 1 ≤ d' := by omega
  have hcast : ((calls.length : Int) < ((L : Int) + 1) * (d' : Int)) ↔
      calls.length < (L + 1) * d' := by
    constructor
    · intro h
      exact_mod_cast h
    · intro h
      exact_mod_cast h
  rw [hcast]
  obtain ⟨-, -, hcase⟩ := run_updates_start_inv log buf L d' now hd' calls
  rcases hcase with ⟨hact, hsk, hsam, hn⟩ | ⟨hact, -, -, hn⟩
  · refine ⟨fun _ => ?_, fun _ => hact⟩
    have h1 : (run_updates (pbio_logger_start log buf L d' now) calls).sampled * d' ≤ L * d' :=
      Nat.mul_le_mul_right _ hsam
    rw [hn, Nat.add_mul]
    omega
  · refine ⟨fun h => ?_, fun h => ?_⟩
    · rw [hact] at h
      cases h
    · omega

/-- C17 at the specification's example (capacity 3, divisor 2): the session is active
after each of the first seven updates and inactive from the eighth on. -/
theorem logger_active_after_updates_witness :
    (List.range 11).map (fun n => (run_updates (pbio_logger_start log0 (fun _ => 0) 3 2 100)
      (List.replicate n ⟨values_from 10, 101⟩)).active) =
      [true, true, true, true, true, true, true, true, false, false, false] ∧
    ((run_updates (pbio_logger_start log0 (fun _ => 0) 3 2 100)
        (List.replicate 8 ⟨values_from 10, 101⟩)).active = true ↔
      (((List.replicate 8 (⟨values_from 10, 101⟩ : update_call)).length : Nat) : Int) <
        (((3 : Nat) : Int) + 1) * 2) :=
  ⟨by decide,
    logger_active_after_updates log0 (fun _ => 0) 3 2 100
      (List.replicate 8 ⟨values_from 10, 101⟩) (by decide)⟩

/-- C18: `pbio_logger_update` on an inactive session changes nothing: the log after the
call, with its skip counter, its row count and every buffer cell, is the log before the
call, whatever the values and the clock reading. -/
theorem logger_update_inactive_noop (log : pbio_log_t) (v : Nat → Int) (t : Int)
    (h : log.active = false) :
    pbio_logger_update log v t = log ∧
    (pbio_logger_update log v t).skipped = log.skipped ∧
    (pbio_logger_update log v t).sampled = log.sampled ∧
    (∀ j, (pbio_logger_update log v t).data j = log.data j) := by
  rw [pbio_logger_update_inactive log v t h]
  exact ⟨rfl, rfl, rfl, fun _ => rfl⟩

/-- C18 on a log that was never started, on a stopped session and on a session deactivated
when full: an update leaves the counters and the cells as they are. -/
theorem logger_update_inactive_noop_witness :
    (pbio_logger_update log0 (values_from 40) 104).skipped = log0.skipped ∧
    (pbio_logger_update (pbio_logger_stop log_one_row) (values_from 40) 104).skipped = 1 ∧
    (List.range 8).map
      (pbio_logger_update (pbio_logger_stop log_one_row) (values_from 40) 104).data =
      [7, 7, 7, 0, 0, 0, 0, 0] ∧
    (pbio_logger_update (run_updates (pbio_logger_start log0 (fun _ => 0) 3 2 100)
      (List.replicate 8 ⟨values_from 10, 101⟩)) (values_from 40) 104).sampled = 3 :=
  ⟨(logger_update_inactive_noop log0 (values_from 40) 104 rfl).2.1,
    by decide, by decide, by decide⟩

theorem update_write_loop_cells_mem (nv base : Nat) (hnv : nv ≤ 255) :
    ∀ (fuel i : Nat) (j : Nat), j ∈ update_write_loop_cells nv base fuel i →
      base + i ≤ j ∧ j < base + nv := by
  intro fuel
  induction fuel with
  | zero =>
    intro i j h
    simp [update_write_loop_cells] at h
  | succ fuel ih =>
    intro i j h
    unfold update_write_loop_cells at h
    by_cases hi : i < nv
    · rw [if_pos hi, to_uint8_succ hi hnv] at h
      rcases List.mem_cons.mp h with rfl | h
      · omega
      · have := ih (i + 1) j h
        omega
    · rw [if_neg hi] at h
      cases h

theorem read_copy_loop_cells_mem (nv base : Nat) (hnv : nv ≤ 255) :
    ∀ (fuel i : Nat) (j : Nat), j ∈ read_copy_loop_cells nv base fuel i →
      base + i ≤ j ∧ j < base + nv := by
  intro fuel
  induction fuel with
  | zero =>
    intro i j h
    simp [read_copy_loop_cells] at h
  | succ fuel ih =>
    intro i j h
    unfold read_copy_loop_cells at h
    by_cases hi : i < nv
    · rw [if_pos hi, to_uint8_succ hi hnv] at h
      rcases List.mem_cons.mp h with rfl | h
      · omega
      · have := ih (i + 1) j h
        omega
    · rw [if_neg hi] at h
      cases h

/-- A cell that `update_write_loop_cells` does not list keeps its content in
`update_write_loop`. -/
theorem update_write_loop_frame (nv base : Nat) (buf : Nat → Int) :
    ∀ (fuel i : Nat) (data : Nat → Int) (j : Nat),
      j ∉ update_write_loop_cells nv base fuel i →
      update_write_loop nv base buf fuel i data j = data j := by
  intro fuel
  induction fuel with
  | zero =>
    intro i data j _
    rfl
  | succ fuel ih =>
    intro i data j h
    unfold update_write_loop
    unfold update_write_loop_cells at h
    by_cases hi : i < nv
    · rw [if_pos hi] at h
      have hne : j ≠ base + i := fun heq => h (by rw [heq]; exact List.mem_cons_self _ _)
      rw [if_pos hi, ih _ _ j (fun hmem => h (List.mem_cons_of_mem _ hmem)),
        Function.update_noteq hne]
    · rw [if_neg hi]

/-- The cells that `pbio_logger_update_cells` does not list keep their content in
`pbio_logger_update`. -/
theorem pbio_logger_update_cells_frame (log : pbio_log_t) (v : Nat → Int) (t : Int) (j : Nat)
    (h : j ∉ pbio_logger_update_cells log) :
    (pbio_logger_update log v t).data j = log.data j := by
  unfold pbio_logger_update
  unfold pbio_logger_update_cells at h
  split_ifs at h ⊢ with h1 h2 h3 h4
  · rfl
  · rfl
  · rfl
  · rfl
  · show update_write_loop _ _ v 256 NUM_DEFAULT_LOG_VALUES _ j = log.data j
    have hne : j ≠ log.sampled * log.num_values.val :=
      fun heq => h (by rw [heq]; exact List.mem_cons_self _ _)
    rw [update_write_loop_frame _ _ v 256 _ _ j (fun hmem => h (List.mem_cons_of_mem _ hmem)),
      Function.update_noteq hne]

theorem logger_op_apply_len (log : pbio_log_t) (op : logger_op) (h : op.restarts = false) :
    (logger_op.apply log op).len = log.len := by
  cases op with
  | update values now =>
    show (pbio_logger_update log values now).len = log.len
    unfold pbio_logger_update
    split_ifs <;> rfl
  | stop => rfl
  | read sindex buf =>
    show (pbio_logger_read log sindex buf).log.len = log.len
    rw [pbio_logger_read_log]
  | rows => rfl
  | cols => rfl
  | start buf len div now => simp [logger_op.restarts] at h

theorem run_ops_len (ops : List logger_op) :
    ∀ log : pbio_log_t, (∀ op ∈ ops, op.restarts = false) →
      (run_ops log ops).len = log.len := by
  induction ops with
  | nil => intro log _; rfl
  | cons op ops ih =>
    intro log h
    have h1 := logger_op_apply_len log op (h op (List.mem_cons_self _ _))
    have h2 := ih (logger_op.apply log op) (fun o ho => h o (List.mem_cons_of_mem _ ho))
    exact h2.trans h1

/-- The cells accessed on a log within its capacity lie in the first `len * num_values`
cells. -/
theorem logger_cells_in_bounds (s : pbio_log_t) (hcap : s.sampled ≤ s.len)
    (hnv : 1 ≤ s.num_values.val) :
    (∀ j ∈ pbio_logger_update_cells s, j < s.len * s.num_values.val) ∧
    (∀ sindex, ∀ j ∈ pbio_logger_read_cells s sindex, j < s.len * s.num_values.val) := by
  have hnv255 : s.num_values.val ≤ 255 := by
    have := s.num_values.isLt
    omega
  constructor
  · intro j hj
    unfold pbio_logger_update_cells at hj
    split_ifs at hj with h1 h2 h3 h4
    · cases hj
    · cases hj
    · cases hj
    · cases hj
    · have hrow : (s.sampled + 1) * s.num_values.val ≤ s.len * s.num_values.val :=
        Nat.mul_le_mul_right _ (by omega)
      rw [Nat.add_mul] at hrow
      rcases List.mem_cons.mp hj with rfl | hj
      · omega
      · have := update_write_loop_cells_mem _ _ hnv255 _ _ j hj
        omega
  · intro sindex j hj
    unfold pbio_logger_read_cells at hj
    by_cases h1 : sindex < -1
    · rw [if_pos h1] at hj
      cases hj
    · rw [if_neg h1] at hj
      dsimp only at hj
      split_ifs at hj with h2 h3 h3
      · cases hj
      · have hmem := read_copy_loop_cells_mem _ _ hnv255 _ _ j hj
        have hrow : (to_uint32 ((s.sampled : Int) - 1) + 1) * s.num_values.val ≤
            s.len * s.num_values.val := Nat.mul_le_mul_right _ (by omega)
        rw [Nat.add_mul] at hrow
        omega
      · cases hj
      · have hmem := read_copy_loop_cells_mem _ _ hnv255 _ _ j hj
        have hrow : (to_uint32 sindex + 1) * s.num_values.val ≤
            s.len * s.num_values.val := Nat.mul_le_mul_right _ (by omega)
        rw [Nat.add_mul] at hrow
        omega

/-- C19: logger memory bounds.  Let a session be started with capacity `L` on a log of
`num_values ≥ 1` columns, and let any calls that do not restart it follow.  In the state
reached, every cell index that `pbio_logger_update` writes and every cell index that
`pbio_logger_read` reads (for any index argument; a failing read reads no cell) is below
`L * num_values`, the number of cells that the buffer given to `pbio_logger_start` holds;
and `pbio_logger_update` changes no cell other than those it is listed to write. -/
theorem logger_memory_bounds (log : pbio_log_t) (buf : Nat → Int) (L : Nat) (d : Int)
    (now : Int) (ops : List logger_op) (hnv : 1 ≤ log.num_values.val)
    (hops : ∀ op ∈ ops, op.restarts = false) :
    (∀ j ∈ pbio_logger_update_cells (run_ops (pbio_logger_start log buf L d now) ops),
      j < L * log.num_values.val) ∧
    (∀ sindex, ∀ j ∈ pbio_logger_read_cells (run_ops (pbio_logger_start log buf L d now) ops)
      sindex, j < L * log.num_values.val) ∧
    (∀ (v : Nat → Int) (t : Int) (j : Nat),
      j ∉ pbio_logger_update_cells (run_ops (pbio_logger_start log buf L d now) ops) →
      (pbio_logger_update (run_ops (pbio_logger_start log buf L d now) ops) v t).data j =
        (run_ops (pbio_logger_start log buf L d now) ops).data j) := by
  obtain ⟨hcap, hnum⟩ :=
    run_ops_capacity ops (pbio_logger_start log buf L d now) (Nat.zero_le _)
  have hlen : (run_ops (pbio_logger_start log buf L d now) ops).len = L :=
    run_ops_len ops (pbio_logger_start log buf L d now) hops
  have hnum' : (run_ops (pbio_logger_start log buf L d now) ops).num_values =
      log.num_values := hnum
  obtain ⟨hw, hr⟩ := logger_cells_in_bounds
    (run_ops (pbio_logger_start log buf L d now) ops) hcap (by rw [hnum']; exact hnv)
  rw [hlen, hnum'] at hw hr
  exact ⟨hw, hr, fun v t j hj => pbio_logger_update_cells_frame _ v t j hj⟩

/-- C19 on the specification's example (capacity 3, three columns, so nine cells): the
third sampling update writes the cells 6, 7, 8, reading the latest row of the full log
reads the cells 6, 7, 8, and reading index 3 reads no cell. -/
theorem logger_memory_bounds_witness :
    pbio_logger_update_cells (run_ops (pbio_logger_start log0 (fun _ => 0) 3 2 100)
      [.update (values_from 10) 101, .update (values_from 20) 102,
        .update (values_from 30) 103, .update (values_from 40) 104,
        .update (values_from 50) 105]) = [6, 7, 8] ∧
    pbio_logger_read_cells (run_ops (pbio_logger_start log0 (fun _ => 0) 3 2 100)
      [.update (values_from 10) 101, .update (values_from 20) 102,
        .update (values_from 30) 103, .update (values_from 40) 104,
        .update (values_from 50) 105, .update (values_from 60) 106, .stop]) (-1) =
      [6, 7, 8] ∧
    pbio_logger_read_cells (run_ops (pbio_logger_start log0 (fun _ => 0) 3 2 100)
      [.update (values_from 10) 101, .update (values_from 20) 102,
        .update (values_from 30) 103, .update (values_from 40) 104,
        .update (values_from 50) 105, .update (values_from 60) 106, .stop]) 3 = [] ∧
    (∀ j ∈ pbio_logger_update_cells (run_ops (pbio_logger_start log0 (fun _ => 0) 3 2 100)
      [.update (values_from 10) 101, .update (values_from 20) 102,
        .update (values_from 30) 103, .update (values_from 40) 104,
        .update (values_from 50) 105]), j < 3 * log0.num_values.val) :=
  ⟨by decide, by decide, by decide,
    (logger_memory_bounds log0 (fun _ => 0) 3 2 100
      [.update (values_from 10) 101, .update (values_from 20) 102,
        .update (values_from 30) 103, .update (values_from 40) 104,
        .update (values_from 50) 105] (by decide) (by decide)).1⟩

/-! ## Further properties of the motor constructor -/

/-- C11, evaluated at degenerate gear arguments: for the empty sequence `[]` the
constructor reads `trains[0]` of an array of no elements, and for `[[]]` and
`[[12, 36], []]` it reads `gears[0]` of an empty stage; in the three cases the call ends
with a read outside the array, not with a typed error, and nothing checks it. -/
theorem make_new_degenerate_gears_fault :
    (motor_Motor_make_new setup_ok 0 [.small_int 65, .small_int 0, .seq []]).result =
      .error .out_of_bounds ∧
    (motor_Motor_make_new setup_ok 0
      [.small_int 65, .small_int 0, .seq [.seq []]]).result = .error .out_of_bounds ∧
    (motor_Motor_make_new setup_ok 0
      [.small_int 65, .small_int 0,
        .seq [.seq [.small_int 12, .small_int 36], .seq []]]).result =
      .error .out_of_bounds ∧
    array_get [] 0 = .error .out_of_bounds := by
  have h1 : make_new_gear_ratio (.seq []) = .error .out_of_bounds := by decide
  have h2 : make_new_gear_ratio (.seq [.seq []]) = .error .out_of_bounds := by decide
  have h3 : make_new_gear_ratio (.seq [.seq [.small_int 12, .small_int 36], .seq []]) =
      .error .out_of_bounds := by decide
  exact ⟨(motor_Motor_make_new_error setup_ok 65 0 _ _ h1).2,
    (motor_Motor_make_new_error setup_ok 65 0 _ _ h2).2,
    (motor_Motor_make_new_error setup_ok 65 0 _ _ h3).2, rfl⟩

/-- C12, evaluated at gear arguments that the constructor accepts.  For eleven stages
`[32767, 1]`, every tooth count being within `1..32767`, the product of `last / first`
over the stages is positive, but the `float_t` ratio underflows: the constructor succeeds
and passes `0.0`, the number 0, to `pbio_motor_setup`.  For nine stages `[1, 32767]` the
ratio overflows: the constructor passes positive infinity, which is no number at all. -/
theorem make_new_gear_ratio_underflow :
    (GearTrainSpec.nested (List.replicate 11 [32767, 1])).teeth_in_range ∧
    0 < (GearTrainSpec.nested (List.replicate 11 [32767, 1])).ratio ∧
    (motor_Motor_make_new setup_ok 0
      [.small_int 65, .small_int 0,
        (GearTrainSpec.nested (List.replicate 11 [32767, 1])).to_obj]).result = .ok ⟨65⟩ ∧
    (motor_Motor_make_new setup_ok 0
      [.small_int 65, .small_int 0,
        (GearTrainSpec.nested (List.replicate 11 [32767, 1])).to_obj]).trace =
      [.pb_thread_enter, .pbio_motor_setup 65 0 (.finite false 0 (-149)),
        .pb_thread_exit] ∧
    (float_t.finite false 0 (-149)).to_rat = some 0 ∧
    (motor_Motor_make_new setup_ok 0
      [.small_int 65, .small_int 0,
        (GearTrainSpec.nested (List.replicate 9 [1, 32767])).to_obj]).trace =
      [.pb_thread_enter, .pbio_motor_setup 65 0 (.inf false), .pb_thread_exit] ∧
    (float_t.inf false).to_rat = none := by
  have hzero : make_new_gear_ratio
      (GearTrainSpec.nested (List.replicate 11 [32767, 1])).to_obj =
      .ok (.finite false 0 (-149)) := by decide
  have hinf : make_new_gear_ratio
      (GearTrainSpec.nested (List.replicate 9 [1, 32767])).to_obj =
      .ok (.inf false) := by decide
  refine ⟨?_, ?_, ?_, motor_Motor_make_new_trace setup_ok 65 0 _ _ hzero, ?_,
    motor_Motor_make_new_trace setup_ok 65 0 _ _ hinf, rfl⟩
  · intro teeth hmem
    simp only [GearTrainSpec.stages, List.mem_replicate] at hmem
    obtain ⟨-, rfl⟩ := hmem
    exact ⟨32767, 1, rfl, rfl, by decide, by decide, by decide, by decide⟩
  · simp only [GearTrainSpec.ratio, GearTrainSpec.stages, List.map_replicate,
      List.prod_replicate, stage_ratio]
    norm_num
  · unfold motor_Motor_make_new
    rw [make_new_arguments_three 0 65 0 _ rfl, hzero]
    rfl
  · simp [float_t.to_rat]

/-! ## Properties of the time synchronisation -/

/-- C20: the authority rule of `read_packet`.  When the MAC read reports a non-empty
packet and the sender's authority level is lower than the node's own, the offset becomes
`offset + time_of_departure - time_of_arrival` as an `rtimer_clock_t` and the authority
level becomes the sender's level plus one, which is not greater than the level before;
when the packet is empty or the sender's level is not lower, the offset and the authority
level are unchanged; and in every case `read_packet` returns the length that the MAC
read reported. -/
theorem read_packet_authority_rule (M : Nat) (st : timesynch_t) (rd : mac_read_t) :
    (rd.len ≠ 0 → rd.authority_level_of_sender < st.authority_level →
      (read_packet M st rd).2.offset =
        to_rtimer_clock M ((st.offset : Int) + rd.time_of_departure - rd.time_of_arrival) ∧
      (read_packet M st rd).2.authority_level = rd.authority_level_of_sender + 1 ∧
      (read_packet M st rd).2.authority_level ≤ st.authority_level) ∧
    ((rd.len = 0 ∨ ¬ rd.authority_level_of_sender < st.authority_level) →
      (read_packet M st rd).2 = st) ∧
    (read_packet M st rd).1 = rd.len := by
  unfold read_packet adjust_offset
  by_cases h0 : rd.len = 0
  · simp [h0]
  · by_cases h1 : rd.authority_level_of_sender < st.authority_level
    · by_cases h2 : rd.authority_level_of_sender + 1 = st.authority_level
      · simp [h0, h1, h2]
      · have h3 : rd.authority_level_of_sender + 1 ≤ st.authority_level := by omega
        simp [h0, h1, h2, h3]
    · simp [h0, h1]

/-- C20 on a node of authority level 5 and offset 65000, with a 16-bit rtimer: a packet
of a sender of level 2 that departed at 1000 and arrived at 400 moves the offset to
`(65000 + 1000 - 400) mod 65536 = 64` and the level to 3; a packet of a sender of level 5
and an empty read change nothing. -/
theorem read_packet_authority_rule_witness :
    read_packet 65536 ⟨5, 65000⟩ ⟨12, 2, 1000, 400⟩ = (12, ⟨3, 64⟩) ∧
    read_packet 65536 ⟨5, 65000⟩ ⟨12, 5, 1000, 400⟩ = (12, ⟨5, 65000⟩) ∧
    read_packet 65536 ⟨5, 65000⟩ ⟨0, 2, 1000, 400⟩ = (0, ⟨5, 65000⟩) ∧
    (read_packet 65536 ⟨5, 65000⟩ ⟨12, 2, 1000, 400⟩).1 = 12 :=
  ⟨by decide, by decide, by decide,
    (read_packet_authority_rule 65536 ⟨5, 65000⟩ ⟨12, 2, 1000, 400⟩).2.2⟩

/-! ## Lemmas on the motor commands -/

/-- `motor_Motor_stop` once the stop action `a` is parsed. -/
theorem motor_Motor_stop_eq (env : motor_env) (self : motor_Motor_obj_t)
    (args : List mp_obj_t) (a : Int)
    (hargs : (args = [] ∧ a = PBIO_MOTOR_STOP_COAST) ∨
      ∃ o, args = [o] ∧ mp_obj_get_int o = .ok a) :
    motor_Motor_stop env self args =
      if env.pbio_motor_has_encoder self.port = false ∧ a = PBIO_MOTOR_STOP_HOLD then
        ⟨[.pb_thread_enter, .pbio .pbio_motor_has_encoder [self.port], .pb_thread_exit],
          .error (.pb_error PBIO_ERROR_INVALID_ARG)⟩
      else
        ⟨[.pb_thread_enter, .pbio .pbio_motor_has_encoder [self.port],
            .pbio .pbio_motor_stop [self.port, a], .pb_thread_exit],
          pb_assert (env.pbio_err .pbio_motor_stop [self.port, a])⟩ := by
  rcases hargs with ⟨rfl, rfl⟩ | ⟨o, rfl, ho⟩
  · by_cases henc : env.pbio_motor_has_encoder self.port = true
    · simp [motor_Motor_stop, pure, bind, call_result.bind,
        call_result.pure, raise_if, mp_arg_check_num, pb_thread_enter, pb_thread_exit, emit,
        pbio_call, get_port, henc, PBIO_MOTOR_STOP_COAST, PBIO_MOTOR_STOP_HOLD]
    · simp [motor_Motor_stop, pure, bind, call_result.bind,
        call_result.pure, raise_if, mp_arg_check_num, pb_thread_enter, pb_thread_exit, emit,
        pbio_call, get_port, henc, PBIO_MOTOR_STOP_COAST, PBIO_MOTOR_STOP_HOLD]
  · by_cases henc : env.pbio_motor_has_encoder self.port = true
    · simp [motor_Motor_stop, pure, bind, call_result.bind,
        call_result.pure, raise_if, mp_arg_check_num, pb_thread_enter, pb_thread_exit, emit,
        pbio_call, get_port, henc, method_arg, array_get, ho, Except.bind]
    · by_cases ha : a = PBIO_MOTOR_STOP_HOLD
      · simp [motor_Motor_stop, pure, bind, call_result.bind,
          call_result.pure, raise_if, mp_arg_check_num, pb_thread_enter, pb_thread_exit,
          emit, pbio_call, get_port, henc, method_arg, array_get, ho, Except.bind, ha,
          pb_assert]
      · simp [motor_Motor_stop, pure, bind, call_result.bind,
          call_result.pure, raise_if, mp_arg_check_num, pb_thread_enter, pb_thread_exit,
          emit, pbio_call, get_port, henc, method_arg, array_get, ho, Except.bind, ha]

/-! ## Properties of the motor commands -/

/-- C13: `motor_Motor_stop` with the stop action `a` (Coast when no action is given, else
the integer value of the argument).  With the action Hold on a port for which
`pbio_motor_has_encoder` is false, the command fails with `PBIO_ERROR_INVALID_ARG`,
`pbio_motor_stop` is not called, and the thread lock is released.  In every other case
`pbio_motor_stop` is called exactly once, with the port and the action `a`, the lock is
released, and the command fails if and only if that call reports an error, with that
error. -/
theorem motor_stop_hold_needs_encoder (env : motor_env) (self : motor_Motor_obj_t)
    (args : List mp_obj_t) (a : Int)
    (hargs : (args = [] ∧ a = PBIO_MOTOR_STOP_COAST) ∨
      ∃ o, args = [o] ∧ mp_obj_get_int o = .ok a) :
    (env.pbio_motor_has_encoder self.port = false → a = PBIO_MOTOR_STOP_HOLD →
      (motor_Motor_stop env self args).result = .error (.pb_error PBIO_ERROR_INVALID_ARG) ∧
      (motor_Motor_stop env self args).trace.filter (calls_pbio .pbio_motor_stop) = [] ∧
      lock_run false (motor_Motor_stop env self args).trace = some false) ∧
    (¬ (env.pbio_motor_has_encoder self.port = false ∧ a = PBIO_MOTOR_STOP_HOLD) →
      (motor_Motor_stop env self args).trace.filter (calls_pbio .pbio_motor_stop) =
        [.pbio .pbio_motor_stop [self.port, a]] ∧
      lock_run false (motor_Motor_stop env self args).trace = some false ∧
      ((motor_Motor_stop env self args).result = .ok () ↔
        env.pbio_err .pbio_motor_stop [self.port, a] = PBIO_SUCCESS) ∧
      (env.pbio_err .pbio_motor_stop [self.port, a] ≠ PBIO_SUCCESS →
        (motor_Motor_stop env self args).result =
          .error (.pb_error (env.pbio_err .pbio_motor_stop [self.port, a])))) := by
  rw [motor_Motor_stop_eq env self args a hargs]
  constructor
  · intro henc ha
    rw [if_pos ⟨henc, ha⟩]
    exact ⟨rfl, rfl, rfl⟩
  · intro hnot
    rw [if_neg hnot]
    refine ⟨rfl, rfl, ?_, ?_⟩
    · show pb_assert _ = .ok () ↔ _
      unfold pb_assert
      split_ifs with h <;> simp [h]
    · intro herr
      show pb_assert _ = _
      unfold pb_assert
      rw [if_neg herr]

/-- C13 on concrete calls: Hold on a motor without encoder is refused before
`pbio_motor_stop` is called; without an action argument the motor is stopped with Coast;
Brake on a motor whose pbio call fails ends with the error of that call. -/
theorem motor_stop_hold_needs_encoder_witness :
    (motor_Motor_stop env_failing ⟨65⟩ [.small_int 2]).trace =
      [.pb_thread_enter, .pbio .pbio_motor_has_encoder [65], .pb_thread_exit] ∧
    (motor_Motor_stop env_ok ⟨65⟩ []).trace =
      [.pb_thread_enter, .pbio .pbio_motor_has_encoder [65], .pbio .pbio_motor_stop [65, 0],
        .pb_thread_exit] ∧
    (motor_Motor_stop env_ok ⟨65⟩ [.small_int 2]).result = .ok () ∧
    (motor_Motor_stop env_failing ⟨65⟩ [.small_int 1]).result =
      .error (.pb_error PBIO_ERROR_IO) ∧
    (motor_Motor_stop env_failing ⟨65⟩ [.small_int 2]).result =
      .error (.pb_error PBIO_ERROR_INVALID_ARG) :=
  ⟨by decide, by decide, by decide, by decide,
    ((motor_stop_hold_needs_encoder env_failing ⟨65⟩ [.small_int 2] 2
      (Or.inr ⟨_, rfl, rfl⟩)).1 rfl rfl).1⟩

/-- A wait whose first `n` reads see the maneuver running and whose next read sees it
finished returns after that read, given more than `n` reads. -/
theorem wait_for_completion_loop_done (env : motor_env) (port : Int) :
    ∀ (n fuel k : Nat),
      (∀ j, j < n → env.PBIO_MOTOR_CONTROL_RUNNING_TIME ≤ env.motor_control_active port (k + j)) →
      env.motor_control_active port (k + n) < env.PBIO_MOTOR_CONTROL_RUNNING_TIME →
      n < fuel →
      wait_for_completion_loop env port fuel k =
        ⟨polls port n ++ [.motor_control_active port], .ok ()⟩ := by
  intro n
  induction n with
  | zero =>
    intro fuel k _ hdone hfuel
    obtain ⟨fuel1, rfl⟩ : ∃ fuel1, fuel = fuel1 + 1 := ⟨fuel - 1, by omega⟩
    have hdone' : ¬ env.motor_control_active port k ≥ env.PBIO_MOTOR_CONTROL_RUNNING_TIME := by
      rw [Nat.add_zero] at hdone
      omega
    simp [wait_for_completion_loop, pure, bind, call_result.bind, call_result.pure, emit,
      hdone', polls]
  | succ n ih =>
    intro fuel k hrun hdone hfuel
    obtain ⟨fuel1, rfl⟩ : ∃ fuel1, fuel = fuel1 + 1 := ⟨fuel - 1, by omega⟩
    have hrun0 : env.motor_control_active port k ≥ env.PBIO_MOTOR_CONTROL_RUNNING_TIME := by
      have := hrun 0 (by omega)
      rw [Nat.add_zero] at this
      omega
    have hrec := ih fuel1 (k + 1)
      (fun j hj => by
        have := hrun (j + 1) (by omega)
        rw [show k + 1 + j = k + (j + 1) by omega]
        exact this)
      (by rw [show k + 1 + n = k + (n + 1) by omega]; exact hdone)
      (by omega)
    simp [wait_for_completion_loop, pure, bind, call_result.bind, call_result.pure, emit,
      mp_hal_delay_ms, hrun0, hrec, polls]

/-- A wait all of whose reads see the maneuver running has not returned when the given
number of reads is used up. -/
theorem wait_for_completion_loop_pending (env : motor_env) (port : Int) :
    ∀ (fuel k : Nat),
      (∀ j, j < fuel →
        env.PBIO_MOTOR_CONTROL_RUNNING_TIME ≤ env.motor_control_active port (k + j)) →
      wait_for_completion_loop env port fuel k = ⟨polls port fuel, .error .out_of_fuel⟩ := by
  intro fuel
  induction fuel with
  | zero =>
    intro k _
    rfl
  | succ fuel ih =>
    intro k hrun
    have hrun0 : env.motor_control_active port k ≥ env.PBIO_MOTOR_CONTROL_RUNNING_TIME := by
      have := hrun 0 (by omega)
      rw [Nat.add_zero] at this
      omega
    have hrec := ih (k + 1)
      (fun j hj => by
        have := hrun (j + 1) (by omega)
        rw [show k + 1 + j = k + (j + 1) by omega]
        exact this)
    simp [wait_for_completion_loop, pure, bind, call_result.bind, call_result.pure, emit,
      mp_hal_delay_ms, hrun0, hrec, polls]

/-- The events of a wait are reads of the control state and sleeps, made with the thread
lock free, and they leave the DC settings alone. -/
theorem wait_for_completion_loop_trace (env : motor_env) (port : Int) :
    ∀ (fuel k : Nat),
      (∀ e ∈ (wait_for_completion_loop env port fuel k).trace, is_wait_event e = true) ∧
      lock_run false (wait_for_completion_loop env port fuel k).trace = some false := by
  intro fuel
  induction fuel with
  | zero =>
    intro k
    exact ⟨fun e he => (by cases he), rfl⟩
  | succ fuel ih =>
    intro k
    obtain ⟨hev, hlock⟩ := ih (k + 1)
    by_cases hrun : env.motor_control_active port k ≥ env.PBIO_MOTOR_CONTROL_RUNNING_TIME
    · cases hres : (wait_for_completion_loop env port fuel (k + 1)).result with
      | ok u =>
        have htrace : (wait_for_completion_loop env port (fuel + 1) k).trace =
            .motor_control_active port :: .mp_hal_delay_ms 10 ::
              (wait_for_completion_loop env port fuel (k + 1)).trace := by
          simp [wait_for_completion_loop, pure, bind, call_result.bind, call_result.pure, emit,
            mp_hal_delay_ms, hrun, hres]
        rw [htrace]
        refine ⟨?_, ?_⟩
        · intro e he
          rcases List.mem_cons.mp he with rfl | he
          · rfl
          · rcases List.mem_cons.mp he with rfl | he
            · rfl
            · exact hev e he
        · exact hlock
      | error e =>
        have htrace : (wait_for_completion_loop env port (fuel + 1) k).trace =
            .motor_control_active port :: .mp_hal_delay_ms 10 ::
              (wait_for_completion_loop env port fuel (k + 1)).trace := by
          simp [wait_for_completion_loop, pure, bind, call_result.bind, call_result.pure, emit,
            mp_hal_delay_ms, hrun, hres]
        rw [htrace]
        refine ⟨?_, ?_⟩
        · intro e he
          rcases List.mem_cons.mp he with rfl | he
          · rfl
          · rcases List.mem_cons.mp he with rfl | he
            · rfl
            · exact hev e he
        · exact hlock
    · have htrace : (wait_for_completion_loop env port (fuel + 1) k).trace =
          [.motor_control_active port] := by
        simp [wait_for_completion_loop, pure, bind, call_result.bind, call_result.pure, emit,
          hrun]
      rw [htrace]
      refine ⟨?_, rfl⟩
      intro e he
      rcases List.mem_cons.mp he with rfl | he
      · rfl
      · cases he

theorem wait_for_completion_trace (env : motor_env) (fuel : Nat) (port : Int)
    (foreground : Bool) :
    (∀ e ∈ (wait_for_completion env fuel port foreground).trace, is_wait_event e = true) ∧
    lock_run false (wait_for_completion env fuel port foreground).trace = some false := by
  unfold wait_for_completion
  cases foreground with
  | true => exact wait_for_completion_loop_trace env port fuel 0
  | false => exact ⟨fun e he => (by cases he), rfl⟩

/-- The shared part of the run commands: the pbio call under the lock, then the error of
the call, or the wait. -/
theorem call_and_wait_eq (env : motor_env) (fuel : Nat) (port : Int) (fn : pbio_fn)
    (fargs : List Int) (foreground : Bool) :
    call_and_wait env fuel port fn fargs foreground =
      if env.pbio_err fn fargs = PBIO_SUCCESS then
        ⟨[.pb_thread_enter, .pbio fn fargs, .pb_thread_exit] ++
            (wait_for_completion env fuel port foreground).trace,
          (wait_for_completion env fuel port foreground).result⟩
      else
        ⟨[.pb_thread_enter, .pbio fn fargs, .pb_thread_exit],
          .error (.pb_error (env.pbio_err fn fargs))⟩ := by
  by_cases herr : env.pbio_err fn fargs = PBIO_SUCCESS
  · simp [call_and_wait, pure, bind, call_result.bind, call_result.pure, raise_if,
      pb_thread_enter, pb_thread_exit, emit, pbio_call, pb_assert, herr]
  · simp [call_and_wait, pure, bind, call_result.bind, call_result.pure, raise_if,
      pb_thread_enter, pb_thread_exit, emit, pbio_call, pb_assert, herr]

/-- `motor_Motor_run_until_stalled` once its arguments are parsed: the first section
under the lock, then the error of the pbio call, or the wait and, when the wait returns,
the second section under the lock. -/
theorem motor_Motor_run_until_stalled_eq (env : motor_env) (dc : dc_settings) (fuel : Nat)
    (self : motor_Motor_obj_t) (args : List mp_obj_t) (speed after_stop : Int)
    (override : Bool) (duty : Int)
    (hargs : run_until_stalled_arguments args = .ok (speed, after_stop, override, duty)) :
    motor_Motor_run_until_stalled env dc fuel self args =
      if env.pbio_err .pbio_motor_run_until_stalled [self.port, speed, after_stop] =
          PBIO_SUCCESS then
        match (wait_for_completion env fuel self.port true).result with
        | .ok _ =>
          ⟨.pb_thread_enter ::
              ((if override then
                  [.pbio .pbio_motor_get_dc_settings [self.port],
                    .pbio .pbio_motor_set_dc_settings [self.port, duty, dc.duty_offset]]
                else []) ++
                [.pbio .pbio_motor_run_until_stalled [self.port, speed, after_stop],
                  .pb_thread_exit] ++
                (wait_for_completion env fuel self.port true).trace ++
                [.pb_thread_enter, .pbio .pbio_motor_get_angle [self.port]] ++
                (if override then
                  [.pbio .pbio_motor_set_dc_settings
                    [self.port, dc.stall_torque_limit, dc.duty_offset]]
                else []) ++
                [.pb_thread_exit]),
            .ok (env.pbio_out .pbio_motor_get_angle [self.port])⟩
        | .error e =>
          ⟨.pb_thread_enter ::
              ((if override then
                  [.pbio .pbio_motor_get_dc_settings [self.port],
                    .pbio .pbio_motor_set_dc_settings [self.port, duty, dc.duty_offset]]
                else []) ++
                [.pbio .pbio_motor_run_until_stalled [self.port, speed, after_stop],
                  .pb_thread_exit] ++
                (wait_for_completion env fuel self.port true).trace),
            .error e⟩
      else
        ⟨.pb_thread_enter ::
            ((if override then
                [.pbio .pbio_motor_get_dc_settings [self.port],
                  .pbio .pbio_motor_set_dc_settings [self.port, duty, dc.duty_offset]]
              else []) ++
              [.pbio .pbio_motor_run_until_stalled [self.port, speed, after_stop],
                .pb_thread_exit]),
          .error (.pb_error
            (env.pbio_err .pbio_motor_run_until_stalled [self.port, speed, after_stop]))⟩ := by
  by_cases herr : env.pbio_err .pbio_motor_run_until_stalled [self.port, speed, after_stop] =
      PBIO_SUCCESS
  · cases hw : (wait_for_completion env fuel self.port true).result with
    | ok u =>
      cases override <;>
        simp [motor_Motor_run_until_stalled, pure, bind, call_result.bind, call_result.pure,
          raise_if, pb_thread_enter, pb_thread_exit, emit, pbio_call, pb_assert, herr, hargs,
          get_port, hw]
    | error e =>
      cases override <;>
        simp [motor_Motor_run_until_stalled, pure, bind, call_result.bind, call_result.pure,
          raise_if, pb_thread_enter, pb_thread_exit, emit, pbio_call, pb_assert, herr, hargs,
          get_port, hw]
  · cases override <;>
      simp [motor_Motor_run_until_stalled, pure, bind, call_result.bind, call_result.pure,
        raise_if, pb_thread_enter, pb_thread_exit, emit, pbio_call, pb_assert, herr, hargs,
        get_port]

/-- The foreground flag that the run commands parse is the truth value of the argument
`args[4]` when it is given, and true otherwise. -/
theorem run_arguments_foreground (env : motor_env) (args : List mp_obj_t)
    (speed amount after_stop : Int) (foreground : Bool)
    (h : run_arguments env args = .ok (speed, amount, after_stop, foreground)) :
    foreground =
      match args[3]? with
      | some o => env.mp_obj_is_true o
      | none => true := by
  unfold run_arguments at h
  simp only [bind, Except.bind, pure, Except.pure, method_arg, array_get] at h
  by_cases h4 : args.length + 1 > 4
  · have hsome : args[3]? = some args[3] := List.getElem?_eq_getElem (by omega)
    rw [hsome]
    simp only [h4, if_true, Nat.add_one_sub_one, hsome] at h
    repeat' split at h
    all_goals first
      | (cases h; done)
      | (simp only [Except.ok.injEq, Prod.mk.injEq] at h
         exact h.2.2.2.symm)
  · have hnone : args[3]? = none := List.getElem?_eq_none (by omega)
    rw [hnone]
    simp only [h4, if_false] at h
    repeat' split at h
    all_goals first
      | (cases h; done)
      | (simp only [Except.ok.injEq, Prod.mk.injEq] at h
         exact h.2.2.2.symm)

theorem motor_Motor_run_time_eq (env : motor_env) (fuel : Nat) (self : motor_Motor_obj_t)
    (args : List mp_obj_t) :
    motor_Motor_run_time env fuel self args =
      match run_arguments env args with
      | .error e => ⟨[], .error e⟩
      | .ok (speed, duration, after_stop, foreground) =>
        call_and_wait env fuel self.port .pbio_motor_run_time
          [self.port, speed, duration, after_stop] foreground := by
  unfold motor_Motor_run_time
  cases h : run_arguments env args with
  | error e => rfl
  | ok v =>
    obtain ⟨speed, duration, after_stop, foreground⟩ := v
    simp [bind, call_result.bind, raise_if, get_port]

theorem motor_Motor_run_angle_eq (env : motor_env) (fuel : Nat) (self : motor_Motor_obj_t)
    (args : List mp_obj_t) :
    motor_Motor_run_angle env fuel self args =
      match run_arguments env args with
      | .error e => ⟨[], .error e⟩
      | .ok (speed, angle, after_stop, foreground) =>
        call_and_wait env fuel self.port .pbio_motor_run_angle
          [self.port, speed, angle, after_stop] foreground := by
  unfold motor_Motor_run_angle
  cases h : run_arguments env args with
  | error e => rfl
  | ok v =>
    obtain ⟨speed, angle, after_stop, foreground⟩ := v
    simp [bind, call_result.bind, raise_if, get_port]

theorem motor_Motor_run_target_eq (env : motor_env) (fuel : Nat) (self : motor_Motor_obj_t)
    (args : List mp_obj_t) :
    motor_Motor_run_target env fuel self args =
      match run_arguments env args with
      | .error e => ⟨[], .error e⟩
      | .ok (speed, target, after_stop, foreground) =>
        call_and_wait env fuel self.port .pbio_motor_run_target
          [self.port, speed, target, after_stop] foreground := by
  unfold motor_Motor_run_target
  cases h : run_arguments env args with
  | error e => rfl
  | ok v =>
    obtain ⟨speed, target, after_stop, foreground⟩ := v
    simp [bind, call_result.bind, raise_if, get_port]

theorem filter_wait_events_self (w : List event) (h : ∀ e ∈ w, is_wait_event e = true) :
    w.filter is_wait_event = w :=
  List.filter_eq_self.mpr h

/-- C16: blocking wait.  Let the reads of `motor_control_active[port]` that a wait makes
see the values `env.motor_control_active port 0, 1, …`.  When the first `n` values are at
least `PBIO_MOTOR_CONTROL_RUNNING_TIME` and value `n` is below it,
`wait_for_completion(port, true)` returns right after read `n`, having slept 10 ms after
each earlier read (given more than `n` reads; with `n` reads or fewer it has not
returned).  `wait_for_completion(port, false)` returns at once without a read or a sleep.
`motor_Motor_run_time`, `motor_Motor_run_angle` and `motor_Motor_run_target` parse their
arguments and then make the pbio call and wait with the caller's foreground flag, which is
true when the argument is not given; `motor_Motor_run_until_stalled` waits with the flag
true; and none of the four reads the state or sleeps when the pbio call reported an
error. -/
theorem wait_for_completion_blocking (env : motor_env) (fuel : Nat)
    (self : motor_Motor_obj_t) :
    (∀ n, (∀ j, j < n →
        env.PBIO_MOTOR_CONTROL_RUNNING_TIME ≤ env.motor_control_active self.port j) →
      env.motor_control_active self.port n < env.PBIO_MOTOR_CONTROL_RUNNING_TIME →
      (n < fuel → wait_for_completion env fuel self.port true =
        ⟨polls self.port n ++ [.motor_control_active self.port], .ok ()⟩) ∧
      (fuel ≤ n → wait_for_completion env fuel self.port true =
        ⟨polls self.port fuel, .error .out_of_fuel⟩)) ∧
    wait_for_completion env fuel self.port false = ⟨[], .ok ()⟩ ∧
    (∀ args speed amount after_stop foreground,
      run_arguments env args = .ok (speed, amount, after_stop, foreground) →
      (foreground =
        match args[3]? with
        | some o => env.mp_obj_is_true o
        | none => true) ∧
      motor_Motor_run_time env fuel self args =
        call_and_wait env fuel self.port .pbio_motor_run_time
          [self.port, speed, amount, after_stop] foreground ∧
      motor_Motor_run_angle env fuel self args =
        call_and_wait env fuel self.port .pbio_motor_run_angle
          [self.port, speed, amount, after_stop] foreground ∧
      motor_Motor_run_target env fuel self args =
        call_and_wait env fuel self.port .pbio_motor_run_target
          [self.port, speed, amount, after_stop] foreground) ∧
    (∀ fn fargs foreground,
      (env.pbio_err fn fargs = PBIO_SUCCESS →
        call_and_wait env fuel self.port fn fargs foreground =
          ⟨[.pb_thread_enter, .pbio fn fargs, .pb_thread_exit] ++
              (wait_for_completion env fuel self.port foreground).trace,
            (wait_for_completion env fuel self.port foreground).result⟩) ∧
      (env.pbio_err fn fargs ≠ PBIO_SUCCESS →
        call_and_wait env fuel self.port fn fargs foreground =
          ⟨[.pb_thread_enter, .pbio fn fargs, .pb_thread_exit],
            .error (.pb_error (env.pbio_err fn fargs))⟩)) ∧
    (∀ dc args speed after_stop override duty,
      run_until_stalled_arguments args = .ok (speed, after_stop, override, duty) →
      (env.pbio_err .pbio_motor_run_until_stalled [self.port, speed, after_stop] =
          PBIO_SUCCESS →
        (motor_Motor_run_until_stalled env dc fuel self args).trace.filter is_wait_event =
          (wait_for_completion env fuel self.port true).trace) ∧
      (env.pbio_err .pbio_motor_run_until_stalled [self.port, speed, after_stop] ≠
          PBIO_SUCCESS →
        (motor_Motor_run_until_stalled env dc fuel self args).trace.filter is_wait_event =
          [] ∧
        (motor_Motor_run_until_stalled env dc fuel self args).result =
          .error (.pb_error
            (env.pbio_err .pbio_motor_run_until_stalled [self.port, speed, after_stop])))) := by
  refine ⟨?_, rfl, ?_, ?_, ?_⟩
  · intro n hrun hdone
    constructor
    · intro hfuel
      unfold wait_for_completion
      rw [if_pos rfl]
      exact wait_for_completion_loop_done env self.port n fuel 0
        (fun j hj => by rw [Nat.zero_add]; exact hrun j hj)
        (by rw [Nat.zero_add]; exact hdone) hfuel
    · intro hfuel
      unfold wait_for_completion
      rw [if_pos rfl]
      exact wait_for_completion_loop_pending env self.port fuel 0
        (fun j hj => by rw [Nat.zero_add]; exact hrun j (by omega))
  · intro args speed amount after_stop foreground hargs
    refine ⟨run_arguments_foreground env args speed amount after_stop foreground hargs,
      ?_, ?_, ?_⟩
    · rw [motor_Motor_run_time_eq, hargs]
    · rw [motor_Motor_run_angle_eq, hargs]
    · rw [motor_Motor_run_target_eq, hargs]
  · intro fn fargs foreground
    constructor
    · intro herr
      rw [call_and_wait_eq, if_pos herr]
    · intro herr
      rw [call_and_wait_eq, if_neg herr]
  · intro dc args speed after_stop override duty hargs
    have hw := (wait_for_completion_trace env fuel self.port true).1
    have hfilter := filter_wait_events_self _ hw
    rw [motor_Motor_run_until_stalled_eq env dc fuel self args speed after_stop override duty
      hargs]
    constructor
    · intro herr
      rw [if_pos herr]
      cases hres : (wait_for_completion env fuel self.port true).result with
      | ok u =>
        cases override <;>
          simp [List.filter_cons, List.filter_append, is_wait_event, hfilter]
      | error e =>
        cases override <;>
          simp [List.filter_cons, List.filter_append, is_wait_event, hfilter]
    · intro herr
      rw [if_neg herr]
      cases override <;> simp [List.filter_cons, is_wait_event]

/-- C16 on a motor whose control state is seen running at the first two reads and
finished at the third: a foreground `run_time` makes the pbio call and then reads, sleeps
10 ms, reads, sleeps 10 ms and reads; with a false foreground argument it makes the pbio
call only; and when the pbio call fails it neither reads nor sleeps. -/
theorem wait_for_completion_blocking_witness :
    wait_for_completion env_ok 10 65 true =
      ⟨polls 65 2 ++ [.motor_control_active 65], .ok ()⟩ ∧
    (motor_Motor_run_time env_ok 10 ⟨65⟩ [.small_int 500, .small_int 1000]).trace =
      [.pb_thread_enter, .pbio .pbio_motor_run_time [65, 500, 1000, 0], .pb_thread_exit,
        .motor_control_active 65, .mp_hal_delay_ms 10, .motor_control_active 65,
        .mp_hal_delay_ms 10, .motor_control_active 65] ∧
    (motor_Motor_run_time env_ok 10 ⟨65⟩
      [.small_int 500, .small_int 1000, .small_int 1, .obj none]).trace =
      [.pb_thread_enter, .pbio .pbio_motor_run_time [65, 500, 1000, 1], .pb_thread_exit] ∧
    (motor_Motor_run_target env_failing 10 ⟨65⟩ [.small_int 500, .small_int 1000]).trace =
      [.pb_thread_enter, .pbio .pbio_motor_run_target [65, 500, 1000, 0], .pb_thread_exit] ∧
    (motor_Motor_run_until_stalled env_ok ⟨80, 5⟩ 10 ⟨65⟩ [.small_int 500]).trace =
      [.pb_thread_enter, .pbio .pbio_motor_run_until_stalled [65, 500, 0], .pb_thread_exit,
        .motor_control_active 65, .mp_hal_delay_ms 10, .motor_control_active 65,
        .mp_hal_delay_ms 10, .motor_control_active 65,
        .pb_thread_enter, .pbio .pbio_motor_get_angle [65], .pb_thread_exit] ∧
    (motor_Motor_run_until_stalled env_ok ⟨80, 5⟩ 2 ⟨65⟩ [.small_int 500]).result =
      .error .out_of_fuel :=
  ⟨((wait_for_completion_blocking env_ok 10 ⟨65⟩).1 2 (by decide) (by decide)).1 (by decide),
    by decide, by decide, by decide, by decide, by decide⟩

theorem lock_run_append (held : Bool) (t1 t2 : List event) :
    lock_run held (t1 ++ t2) = (lock_run held t1).bind fun h1 => lock_run h1 t2 := by
  unfold lock_run
  rw [List.foldlM_append]
  rfl

theorem lock_safe_bind {α β : Type} {held held1 held2 : Bool} {r : call_result α}
    {k : α → call_result β} (hr : lock_safe held held1 r)
    (hk : ∀ a, lock_safe held1 held2 (k a)) : lock_safe held held2 (r >>= k) := by
  show lock_safe held held2 (call_result.bind r k)
  unfold lock_safe call_result.bind at *
  cases hres : r.result with
  | error e =>
    rw [hres] at hr
    simpa using hr
  | ok a =>
    rw [hres] at hr
    have hka := hk a
    simp only [] at hr ⊢
    cases hkres : (k a).result with
    | error e =>
      rw [hkres] at hka
      simp only [] at hka ⊢
      rw [lock_run_append, hr]
      exact hka
    | ok b =>
      rw [hkres] at hka
      simp only [] at hka ⊢
      rw [lock_run_append, hr]
      exact hka

theorem lock_safe_pure {α : Type} (held : Bool) (a : α) :
    lock_safe held held (pure a : call_result α) := rfl

theorem lock_safe_raise_if {α : Type} (x : Except failure α) :
    lock_safe false false (raise_if x) := by
  unfold lock_safe raise_if
  cases x <;> rfl

theorem lock_safe_raise_error {α : Type} (held1 : Bool) (e : failure) :
    lock_safe false held1 (raise_if (.error e : Except failure α)) := rfl

theorem lock_safe_enter : lock_safe false true pb_thread_enter := rfl

theorem lock_safe_exit : lock_safe true false pb_thread_exit := rfl

theorem lock_safe_pbio_call (held : Bool) (env : motor_env) (fn : pbio_fn) (args : List Int) :
    lock_safe held held (pbio_call env fn args) := by
  cases held <;> rfl

theorem lock_safe_emit_pbio (held : Bool) (fn : pbio_fn) (args : List Int) :
    lock_safe held held (emit (.pbio fn args)) := by
  cases held <;> rfl

theorem lock_safe_wait (env : motor_env) (fuel : Nat) (port : Int) (foreground : Bool) :
    lock_safe false false (wait_for_completion env fuel port foreground) := by
  unfold lock_safe
  have h := (wait_for_completion_trace env fuel port foreground).2
  cases (wait_for_completion env fuel port foreground).result <;> exact h

/-- A command that keeps the lock discipline from the free lock to the free lock has a
trace in which taking and releasing the lock alternate, starting with taking, in which
no sleep falls between taking and releasing, and at whose end the lock is free. -/
theorem lock_safe_run {α : Type} (r : call_result α) (h : lock_safe false false r) :
    lock_run false r.trace = some false := by
  unfold lock_safe at h
  cases hres : r.result with
  | error e => rw [hres] at h; exact h
  | ok a => rw [hres] at h; exact h

theorem motor_Motor_duty_lock (env : motor_env) (self : motor_Motor_obj_t) (duty : mp_obj_t) :
    lock_safe false false (motor_Motor_duty env self duty) := by
  unfold motor_Motor_duty
  dsimp only
  repeat' first
    | exact lock_safe_raise_if _
    | exact lock_safe_enter
    | exact lock_safe_exit
    | exact lock_safe_pbio_call _ _ _ _
    | exact lock_safe_pure _ _
    | apply lock_safe_bind
    | intro _

theorem lock_safe_ite {α : Type} {held held1 : Bool} {c : Prop} [Decidable c]
    {a b : call_result α} (hb : ¬c → lock_safe held held1 b)
    (ha : c → lock_safe held held1 a) : lock_safe held held1 (if c then a else b) := by
  by_cases hc : c
  · rw [if_pos hc]; exact ha hc
  · rw [if_neg hc]; exact hb hc

theorem motor_Motor_angle_lock (env : motor_env) (self : motor_Motor_obj_t) :
    lock_safe false false (motor_Motor_angle env self) := by
  unfold motor_Motor_angle
  dsimp only
  repeat' first
    | exact lock_safe_raise_error _ _
    | exact lock_safe_raise_if _
    | exact lock_safe_enter
    | exact lock_safe_exit
    | exact lock_safe_pbio_call _ _ _ _
    | exact lock_safe_emit_pbio _ _ _
    | exact lock_safe_wait _ _ _ _
    | exact lock_safe_pure _ _
    | apply lock_safe_ite
    | apply lock_safe_bind
    | intro _

theorem motor_Motor_stalled_lock (env : motor_env) (self : motor_Motor_obj_t) :
    lock_safe false false (motor_Motor_stalled env self) := by
  unfold motor_Motor_stalled
  dsimp only
  repeat' first
    | exact lock_safe_raise_error _ _
    | exact lock_safe_raise_if _
    | exact lock_safe_enter
    | exact lock_safe_exit
    | exact lock_safe_pbio_call _ _ _ _
    | exact lock_safe_emit_pbio _ _ _
    | exact lock_safe_wait _ _ _ _
    | exact lock_safe_pure _ _
    | apply lock_safe_ite
    | apply lock_safe_bind
    | intro _

theorem motor_Motor_reset_angle_lock (env : motor_env) (self : motor_Motor_obj_t) (angle : mp_obj_t) :
    lock_safe false false (motor_Motor_reset_angle env self angle) := by
  unfold motor_Motor_reset_angle
  dsimp only
  repeat' first
    | exact lock_safe_raise_error _ _
    | exact lock_safe_raise_if _
    | exact lock_safe_enter
    | exact lock_safe_exit
    | exact lock_safe_pbio_call _ _ _ _
    | exact lock_safe_emit_pbio _ _ _
    | exact lock_safe_wait _ _ _ _
    | exact lock_safe_pure _ _
    | apply lock_safe_ite
    | apply lock_safe_bind
    | intro _

theorem motor_Motor_speed_lock (env : motor_env) (self : motor_Motor_obj_t) :
    lock_safe false false (motor_Motor_speed env self) := by
  unfold motor_Motor_speed
  dsimp only
  repeat' first
    | exact lock_safe_raise_error _ _
    | exact lock_safe_raise_if _
    | exact lock_safe_enter
    | exact lock_safe_exit
    | exact lock_safe_pbio_call _ _ _ _
    | exact lock_safe_emit_pbio _ _ _
    | exact lock_safe_wait _ _ _ _
    | exact lock_safe_pure _ _
    | apply lock_safe_ite
    | apply lock_safe_bind
    | intro _

theorem motor_Motor_run_lock (env : motor_env) (self : motor_Motor_obj_t) (speed_in : mp_obj_t) :
    lock_safe false false (motor_Motor_run env self speed_in) := by
  unfold motor_Motor_run
  dsimp only
  repeat' first
    | exact lock_safe_raise_error _ _
    | exact lock_safe_raise_if _
    | exact lock_safe_enter
    | exact lock_safe_exit
    | exact lock_safe_pbio_call _ _ _ _
    | exact lock_safe_emit_pbio _ _ _
    | exact lock_safe_wait _ _ _ _
    | exact lock_safe_pure _ _
    | apply lock_safe_ite
    | apply lock_safe_bind
    | intro _

theorem motor_Motor_stop_lock (env : motor_env) (self : motor_Motor_obj_t) (args : List mp_obj_t) :
    lock_safe false false (motor_Motor_stop env self args) := by
  unfold motor_Motor_stop
  dsimp only
  repeat' first
    | exact lock_safe_raise_error _ _
    | exact lock_safe_raise_if _
    | exact lock_safe_enter
    | exact lock_safe_exit
    | exact lock_safe_pbio_call _ _ _ _
    | exact lock_safe_emit_pbio _ _ _
    | exact lock_safe_wait _ _ _ _
    | exact lock_safe_pure _ _
    | apply lock_safe_ite
    | apply lock_safe_bind
    | intro _

theorem call_and_wait_lock (env : motor_env) (fuel : Nat) (port : Int) (fn : pbio_fn)
    (fargs : List Int) (foreground : Bool) :
    lock_safe false false (call_and_wait env fuel port fn fargs foreground) := by
  unfold call_and_wait
  repeat' first
    | exact lock_safe_raise_error _ _
    | exact lock_safe_raise_if _
    | exact lock_safe_enter
    | exact lock_safe_exit
    | exact lock_safe_pbio_call _ _ _ _
    | exact lock_safe_emit_pbio _ _ _
    | exact lock_safe_wait _ _ _ _
    | exact lock_safe_pure _ _
    | apply lock_safe_ite
    | apply lock_safe_bind
    | intro _

theorem motor_Motor_track_target_lock (env : motor_env) (self : motor_Motor_obj_t) (target : mp_obj_t) :
    lock_safe false false (motor_Motor_track_target env self target) := by
  unfold motor_Motor_track_target
  dsimp only
  repeat' first
    | exact lock_safe_raise_error _ _
    | exact lock_safe_raise_if _
    | exact lock_safe_enter
    | exact lock_safe_exit
    | exact lock_safe_pbio_call _ _ _ _
    | exact lock_safe_emit_pbio _ _ _
    | exact lock_safe_wait _ _ _ _
    | exact lock_safe_pure _ _
    | apply lock_safe_ite
    | apply lock_safe_bind
    | intro _

theorem motor_Motor_set_run_settings_lock (env : motor_env) (self : motor_Motor_obj_t) (arg1 arg2 : mp_obj_t) :
    lock_safe false false (motor_Motor_set_run_settings env self arg1 arg2) := by
  unfold motor_Motor_set_run_settings
  dsimp only
  repeat' first
    | exact lock_safe_raise_error _ _
    | exact lock_safe_raise_if _
    | exact lock_safe_enter
    | exact lock_safe_exit
    | exact lock_safe_pbio_call _ _ _ _
    | exact lock_safe_emit_pbio _ _ _
    | exact lock_safe_wait _ _ _ _
    | exact lock_safe_pure _ _
    | apply lock_safe_ite
    | apply lock_safe_bind
    | intro _

theorem motor_Motor_set_dc_settings_lock (env : motor_env) (self : motor_Motor_obj_t) (arg1 arg2 : mp_obj_t) :
    lock_safe false false (motor_Motor_set_dc_settings env self arg1 arg2) := by
  unfold motor_Motor_set_dc_settings
  dsimp only
  repeat' first
    | exact lock_safe_raise_error _ _
    | exact lock_safe_raise_if _
    | exact lock_safe_enter
    | exact lock_safe_exit
    | exact lock_safe_pbio_call _ _ _ _
    | exact lock_safe_emit_pbio _ _ _
    | exact lock_safe_wait _ _ _ _
    | exact lock_safe_pure _ _
    | apply lock_safe_ite
    | apply lock_safe_bind
    | intro _

theorem motor_Motor_set_pid_settings_lock (env : motor_env) (self : motor_Motor_obj_t)
    (arg1 arg2 arg3 arg4 arg5 arg6 arg7 arg8 : mp_obj_t) :
    lock_safe false false (motor_Motor_set_pid_settings env self arg1 arg2 arg3 arg4 arg5 arg6 arg7 arg8) := by
  unfold motor_Motor_set_pid_settings
  dsimp only
  repeat' first
    | exact lock_safe_raise_error _ _
    | exact lock_safe_raise_if _
    | exact lock_safe_enter
    | exact lock_safe_exit
    | exact lock_safe_pbio_call _ _ _ _
    | exact lock_safe_emit_pbio _ _ _
    | exact lock_safe_wait _ _ _ _
    | exact lock_safe_pure _ _
    | apply lock_safe_ite
    | apply lock_safe_bind
    | intro _

theorem motor_Motor_run_time_lock (env : motor_env) (fuel : Nat) (self : motor_Motor_obj_t)
    (args : List mp_obj_t) : lock_safe false false (motor_Motor_run_time env fuel self args) := by
  unfold motor_Motor_run_time
  dsimp only
  refine lock_safe_bind (lock_safe_raise_if _) ?_
  rintro ⟨speed, amount, after_stop, foreground⟩
  exact call_and_wait_lock _ _ _ _ _ _

theorem motor_Motor_run_angle_lock (env : motor_env) (fuel : Nat) (self : motor_Motor_obj_t)
    (args : List mp_obj_t) : lock_safe false false (motor_Motor_run_angle env fuel self args) := by
  unfold motor_Motor_run_angle
  dsimp only
  refine lock_safe_bind (lock_safe_raise_if _) ?_
  rintro ⟨speed, amount, after_stop, foreground⟩
  exact call_and_wait_lock _ _ _ _ _ _

theorem motor_Motor_run_target_lock (env : motor_env) (fuel : Nat) (self : motor_Motor_obj_t)
    (args : List mp_obj_t) : lock_safe false false (motor_Motor_run_target env fuel self args) := by
  unfold motor_Motor_run_target
  dsimp only
  refine lock_safe_bind (lock_safe_raise_if _) ?_
  rintro ⟨speed, amount, after_stop, foreground⟩
  exact call_and_wait_lock _ _ _ _ _ _

theorem motor_Motor_run_until_stalled_lock (env : motor_env) (dc : dc_settings) (fuel : Nat)
    (self : motor_Motor_obj_t) (args : List mp_obj_t) :
    lock_safe false false (motor_Motor_run_until_stalled env dc fuel self args) := by
  unfold motor_Motor_run_until_stalled
  dsimp only
  refine lock_safe_bind (lock_safe_raise_if _) ?_
  rintro ⟨speed, after_stop, override_duty_limit, temporary_stall_duty⟩
  dsimp only
  repeat' first
    | exact lock_safe_raise_error _ _
    | exact lock_safe_raise_if _
    | exact lock_safe_enter
    | exact lock_safe_exit
    | exact lock_safe_pbio_call _ _ _ _
    | exact lock_safe_emit_pbio _ _ _
    | exact lock_safe_wait _ _ _ _
    | exact lock_safe_pure _ _
    | apply lock_safe_ite
    | apply lock_safe_bind
    | intro _

theorem motor_Motor_make_new_lock (setup : Int → Int → float_t → pbio_error_t) (n_kw : Nat)
    (args : List mp_obj_t) : lock_safe false false (motor_Motor_make_new setup n_kw args) := by
  unfold motor_Motor_make_new lock_safe
  cases make_new_arguments n_kw args with
  | error e => rfl
  | ok a =>
    obtain ⟨port, direction, gear_ratio⟩ := a
    dsimp only
    split <;> rfl

/-- C14: lock discipline.  In the event trace of every motor command (constructor, dc,
angle, speed, stalled, reset_angle, run, stop, run_time, run_angle, run_target,
run_until_stalled, track_target and the three settings setters), for all arguments, all
answers of pbio and all outcomes (a value returned, an exception raised, or a wait still
going on when the polls run out), running the trace from the free lock breaks no rule and
ends with the lock free: `pb_thread_enter` is called only with the lock free and
`pb_thread_exit` only with the lock held, so that the two strictly alternate starting with
enter, the lock is free at the end of the trace, and `mp_hal_delay_ms` is called only with
the lock free. -/
theorem motor_commands_lock_discipline (env : motor_env) (fuel : Nat) (dc : dc_settings)
    (self : motor_Motor_obj_t) :
    (∀ (setup : Int → Int → float_t → pbio_error_t) (n_kw : Nat) (args : List mp_obj_t),
      lock_run false (motor_Motor_make_new setup n_kw args).trace = some false) ∧
    (∀ duty, lock_run false (motor_Motor_duty env self duty).trace = some false) ∧
    lock_run false (motor_Motor_angle env self).trace = some false ∧
    lock_run false (motor_Motor_speed env self).trace = some false ∧
    lock_run false (motor_Motor_stalled env self).trace = some false ∧
    (∀ angle, lock_run false (motor_Motor_reset_angle env self angle).trace = some false) ∧
    (∀ speed_in, lock_run false (motor_Motor_run env self speed_in).trace = some false) ∧
    (∀ args, lock_run false (motor_Motor_stop env self args).trace = some false) ∧
    (∀ args, lock_run false (motor_Motor_run_time env fuel self args).trace = some false) ∧
    (∀ args, lock_run false (motor_Motor_run_angle env fuel self args).trace = some false) ∧
    (∀ args, lock_run false (motor_Motor_run_target env fuel self args).trace = some false) ∧
    (∀ args, lock_run false (motor_Motor_run_until_stalled env dc fuel self args).trace
      = some false) ∧
    (∀ target, lock_run false (motor_Motor_track_target env self target).trace
      = some false) ∧
    (∀ arg1 arg2, lock_run false (motor_Motor_set_run_settings env self arg1 arg2).trace
      = some false) ∧
    (∀ arg1 arg2, lock_run false (motor_Motor_set_dc_settings env self arg1 arg2).trace
      = some false) ∧
    (∀ arg1 arg2 arg3 arg4 arg5 arg6 arg7 arg8,
      lock_run false
        (motor_Motor_set_pid_settings env self arg1 arg2 arg3 arg4 arg5 arg6 arg7 arg8).trace
      = some false) :=
  ⟨fun setup n_kw args => lock_safe_run _ (motor_Motor_make_new_lock setup n_kw args),
    fun duty => lock_safe_run _ (motor_Motor_duty_lock env self duty),
    lock_safe_run _ (motor_Motor_angle_lock env self),
    lock_safe_run _ (motor_Motor_speed_lock env self),
    lock_safe_run _ (motor_Motor_stalled_lock env self),
    fun angle => lock_safe_run _ (motor_Motor_reset_angle_lock env self angle),
    fun speed_in => lock_safe_run _ (motor_Motor_run_lock env self speed_in),
    fun args => lock_safe_run _ (motor_Motor_stop_lock env self args),
    fun args => lock_safe_run _ (motor_Motor_run_time_lock env fuel self args),
    fun args => lock_safe_run _ (motor_Motor_run_angle_lock env fuel self args),
    fun args => lock_safe_run _ (motor_Motor_run_target_lock env fuel self args),
    fun args => lock_safe_run _ (motor_Motor_run_until_stalled_lock env dc fuel self args),
    fun target => lock_safe_run _ (motor_Motor_track_target_lock env self target),
    fun arg1 arg2 => lock_safe_run _ (motor_Motor_set_run_settings_lock env self arg1 arg2),
    fun arg1 arg2 => lock_safe_run _ (motor_Motor_set_dc_settings_lock env self arg1 arg2),
    fun arg1 arg2 arg3 arg4 arg5 arg6 arg7 arg8 =>
      lock_safe_run _
        (motor_Motor_set_pid_settings_lock env self arg1 arg2 arg3 arg4 arg5 arg6 arg7 arg8)⟩

/-! ## A failed `run_until_stalled` and the DC settings -/

/-- C21, evaluated on the code: let `motor_Motor_run_until_stalled` be called with an
override duty limit `D` on a motor with the DC settings `dc`, and let
`pbio_motor_run_until_stalled` report an error.  The call fails with that error, as the
claim says.  But the temporary limit was written before the pbio call and `pb_assert`
raises before the statement that restores the old one: the trace ends at the
`pb_thread_exit` after the pbio call.  When `pbio_motor_set_dc_settings` accepted the
limit `D`, the DC settings after the failed call are the limit `D` with the old duty
offset; they are the settings of before the call only when `D` happens to be the old
limit.  (When `pbio_motor_set_dc_settings` rejected `D`, the settings never changed.) -/
theorem run_until_stalled_error_keeps_override (env : motor_env) (dc : dc_settings)
    (fuel : Nat) (self : motor_Motor_obj_t) (args : List mp_obj_t) (speed after_stop : Int)
    (duty : Int)
    (hargs : run_until_stalled_arguments args = .ok (speed, after_stop, true, duty))
    (herr : env.pbio_err .pbio_motor_run_until_stalled [self.port, speed, after_stop] ≠
      PBIO_SUCCESS) :
    (motor_Motor_run_until_stalled env dc fuel self args).result =
      .error (.pb_error
        (env.pbio_err .pbio_motor_run_until_stalled [self.port, speed, after_stop])) ∧
    (motor_Motor_run_until_stalled env dc fuel self args).trace =
      [.pb_thread_enter, .pbio .pbio_motor_get_dc_settings [self.port],
        .pbio .pbio_motor_set_dc_settings [self.port, duty, dc.duty_offset],
        .pbio .pbio_motor_run_until_stalled [self.port, speed, after_stop],
        .pb_thread_exit] ∧
    (env.pbio_err .pbio_motor_set_dc_settings [self.port, duty, dc.duty_offset] =
        PBIO_SUCCESS →
      dc_after env self.port dc (motor_Motor_run_until_stalled env dc fuel self args).trace =
        ⟨duty, dc.duty_offset⟩ ∧
      (dc_after env self.port dc
          (motor_Motor_run_until_stalled env dc fuel self args).trace = dc ↔
        duty = dc.stall_torque_limit)) ∧
    (env.pbio_err .pbio_motor_set_dc_settings [self.port, duty, dc.duty_offset] ≠
        PBIO_SUCCESS →
      dc_after env self.port dc (motor_Motor_run_until_stalled env dc fuel self args).trace =
        dc) := by
  have h := motor_Motor_run_until_stalled_eq env dc fuel self args speed after_stop true duty
    hargs
  rw [if_neg herr] at h
  refine ⟨by rw [h], by rw [h]; rfl, ?_, ?_⟩
  · intro hset
    have hdc : dc_after env self.port dc
        (motor_Motor_run_until_stalled env dc fuel self args).trace =
          ⟨duty, dc.duty_offset⟩ := by
      rw [h]
      simp [dc_after, dc_after_event, hset]
    refine ⟨hdc, ?_⟩
    rw [hdc]
    constructor
    · intro heq
      rw [← heq]
    · intro heq
      rw [heq]
  · intro hset
    rw [h]
    simp [dc_after, dc_after_event, hset]

/-- C21 on a motor with stall-torque limit 80 and duty offset 5 whose
`pbio_motor_run_until_stalled` fails with `PBIO_ERROR_IO` while every other pbio call
succeeds: `run_until_stalled` with the override 40 raises the error, and the DC settings
after the failed call are 40 and 5, not 80 and 5. -/
theorem run_until_stalled_error_keeps_override_witness :
    (motor_Motor_run_until_stalled env_stall_failing ⟨80, 5⟩ 10 ⟨65⟩
      [.small_int 500, .small_int 1, .small_int 40]).result =
      .error (.pb_error PBIO_ERROR_IO) ∧
    (motor_Motor_run_until_stalled env_stall_failing ⟨80, 5⟩ 10 ⟨65⟩
      [.small_int 500, .small_int 1, .small_int 40]).trace =
      [.pb_thread_enter, .pbio .pbio_motor_get_dc_settings [65],
        .pbio .pbio_motor_set_dc_settings [65, 40, 5],
        .pbio .pbio_motor_run_until_stalled [65, 500, 1], .pb_thread_exit] ∧
    dc_after env_stall_failing 65 ⟨80, 5⟩
      (motor_Motor_run_until_stalled env_stall_failing ⟨80, 5⟩ 10 ⟨65⟩
        [.small_int 500, .small_int 1, .small_int 40]).trace = ⟨40, 5⟩ ∧
    dc_after env_stall_failing 65 ⟨80, 5⟩
      (motor_Motor_run_until_stalled env_stall_failing ⟨80, 5⟩ 10 ⟨65⟩
        [.small_int 500, .small_int 1, .small_int 40]).trace ≠ ⟨80, 5⟩ :=
  ⟨by decide, by decide,
    ((run_until_stalled_error_keeps_override env_stall_failing ⟨80, 5⟩ 10 ⟨65⟩
      [.small_int 500, .small_int 1, .small_int 40] 500 1 40 (by decide)
      (by decide)).2.2.1 (by decide)).1,
    by decide⟩

end Pybricks
